import Mathlib

/-!
# Inventory service (`src/main.js`): embedding and properties

The service keeps a JSON array of item records in `data.json` and photo files in a cache
directory.  Every handler loads the whole array, works on it, and (for mutating handlers)
writes the whole array back.

Modelling decisions, all taken from `src/main.js`:

* The persisted array is a `List Item`; an item record has the four keys the register handler
  writes (`id`, `name`, `description`, `photo`).  `id` is a string, `photo` is a stored file name
  or `null`; `name` and `description` hold arbitrary JSON values, because `PUT /inventory/:id`
  stores whatever JSON value the body carries.
* JSON numbers are IEEE-754 doubles, given by their bit pattern.  `JSON.stringify` writes a
  non-finite number as `null` and negative zero as `0`, and writes every other value so that
  `JSON.parse` reads it back unchanged; `JVal.serialise` is that round trip.  `saveData` applies
  it to the whole array.  A response records the value handed to `res.json`; `Response.sent` is
  what the client receives after serialisation.
* Request bodies are the parsed values in `req.body` (what `express.json()`, `urlencoded` or the
  multipart stage hands to the handler); `none` for a body is `req.body === undefined`, on which
  reading a property throws and the request ends in the 500 error page.
* The cache directory is an association list from stored file names to byte contents.
* `Date.now()` and `Math.round(Math.random() * 9999)` are inputs of the request that reads them.
* A JavaScript `undefined` (absent body key, absent `req.file`) is `none`.
* Requests are handled one after another; storage failures are not modelled.
-/

namespace Inventory

/-! ## JSON values -/

/-- JavaScript number: an IEEE-754 binary64 value, by its bit pattern (sign, 11 exponent bits,
52 fraction bits). -/
structure Dbl where
  bits : Fin (2 ^ 64)
  deriving DecidableEq

/-- Biased exponent field. -/
def Dbl.exponent (d : Dbl) : Nat := d.bits.val / 2 ^ 52 % 2 ^ 11

/-- Fraction field. -/
def Dbl.fraction (d : Dbl) : Nat := d.bits.val % 2 ^ 52

/-- `Number.isFinite`: neither an infinity nor a NaN. -/
def Dbl.isFinite (d : Dbl) : Bool := decide (d.exponent ≠ 2047)

/-- `Number.isNaN`. -/
def Dbl.isNaN (d : Dbl) : Bool := decide (d.exponent = 2047) && decide (d.fraction ≠ 0)

/-- Positive or negative zero. -/
def Dbl.isZero (d : Dbl) : Bool := decide (d.bits.val % 2 ^ 63 = 0)

/-- The number `0`. -/
def Dbl.zero : Dbl := ⟨0⟩

/-- The number `Infinity`, which `JSON.parse` yields for a literal such as `1e400`. -/
def Dbl.infinity : Dbl := ⟨9218868437227405312⟩

mutual
/-- JSON value as produced by `JSON.parse` / consumed by `JSON.stringify`. -/
inductive JVal where
  | null
  | bool (b : Bool)
  | num (d : Dbl)
  | str (s : String)
  | arr (xs : JList)
  | obj (kvs : JFields)
  deriving DecidableEq
/-- Elements of a JSON array. -/
inductive JList where
  | nil
  | cons (v : JVal) (rest : JList)
  deriving DecidableEq
/-- Key/value pairs of a JSON object, in key order. -/
inductive JFields where
  | nil
  | cons (k : String) (v : JVal) (rest : JFields)
  deriving DecidableEq
end

mutual
/-- The value read back after `JSON.stringify`: non-finite numbers become `null`, negative zero
becomes `0`, everything else is kept. -/
def JVal.serialise : JVal → JVal
  | .null => .null
  | .bool b => .bool b
  | .num d => if d.isFinite then (if d.isZero then .num Dbl.zero else .num d) else .null
  | .str s => .str s
  | .arr xs => .arr xs.serialise
  | .obj kvs => .obj kvs.serialise
/-- Element-wise `JVal.serialise`. -/
def JList.serialise : JList → JList
  | .nil => .nil
  | .cons v rest => .cons v.serialise rest.serialise
/-- Value-wise `JVal.serialise`. -/
def JFields.serialise : JFields → JFields
  | .nil => .nil
  | .cons k v rest => .cons k v.serialise rest.serialise
end

mutual
/-- No number occurs in the value. -/
def JVal.numberFree : JVal → Bool
  | .num _ => false
  | .arr xs => xs.numberFree
  | .obj kvs => kvs.numberFree
  | _ => true
/-- No number occurs in the elements. -/
def JList.numberFree : JList → Bool
  | .nil => true
  | .cons v rest => v.numberFree && rest.numberFree
/-- No number occurs in the values. -/
def JFields.numberFree : JFields → Bool
  | .nil => true
  | .cons _ v rest => v.numberFree && rest.numberFree
end

/-- Array literal. -/
def JVal.mkArr : List JVal → JVal
  | xs => .arr (xs.foldr JList.cons JList.nil)

/-- Object literal. -/
def JVal.mkObj : List (String × JVal) → JVal
  | kvs => .obj (kvs.foldr (fun kv r => JFields.cons kv.1 kv.2 r) JFields.nil)

/-- Value of key `k` in an object's fields (`none`: the key is absent). -/
def JFields.get? (k : String) : JFields → Option JVal
  | .nil => none
  | .cons k' v rest => if k' = k then some v else rest.get? k

/-- Keys of an object's fields. -/
def JFields.keys : JFields → List String
  | .nil => []
  | .cons k _ rest => k :: rest.keys

/-- Property access `v.k` on a JSON value; `none` is `undefined`. -/
def JVal.get? (k : String) : JVal → Option JVal
  | .obj kvs => kvs.get? k
  | _ => none

/-- Whether `k` is an own key of the JSON object `v`. -/
def JVal.hasKey (k : String) : JVal → Bool
  | .obj kvs => decide (k ∈ kvs.keys)
  | _ => false

/-- JavaScript truthiness of a JSON value (`!v` is its negation). -/
def JVal.truthy : JVal → Bool
  | .null => false
  | .bool b => b
  | .num d => !(d.isZero || d.isNaN)
  | .str s => decide (s ≠ "")
  | .arr _ => true
  | .obj _ => true

/-- Truthiness of a possibly `undefined` value. -/
def truthy? : Option JVal → Bool
  | none => false
  | some v => v.truthy

/-- Nullish coalescing `a ?? b`: `b` when `a` is `undefined` or `null`, else `a`. -/
def nullish (a : Option JVal) (b : JVal) : JVal :=
  match a with
  | none => b
  | some .null => b
  | some v => v

/-- Logical or `a || b` on values: `a` when truthy, else `b`. -/
def orElse (a : Option JVal) (b : JVal) : JVal :=
  match a with
  | none => b
  | some v => if v.truthy then v else b

/-! ## Items, uploads, state -/

/-- Byte content of a file. -/
abbrev Bytes := List Nat

/-- Item record of `data.json`. -/
structure Item where
  id : String
  name : JVal
  description : JVal
  photo : Option String
  deriving DecidableEq

/-- Truthiness of `item.photo` (a string or `null`). -/
def Item.photoTruthy (it : Item) : Bool :=
  match it.photo with
  | none => false
  | some p => decide (p ≠ "")

/-- File received by `upload.single("photo")`: the clock reading and the random integer read by
the `filename` callback, `path.extname(file.originalname)`, and the file's bytes. -/
structure Upload where
  clock : Nat
  rand : Nat
  ext : String
  bytes : Bytes
  deriving DecidableEq

/-- The `filename` callback of `multer.diskStorage`:
`Date.now() + "-" + Math.round(Math.random() * 9999) + path.extname(file.originalname)`. -/
def Upload.filename (u : Upload) : String :=
  Nat.repr u.clock ++ "-" ++ Nat.repr u.rand ++ u.ext

/-- Cache directory: stored name ↦ content. -/
abbrev Files := List (String × Bytes)

/-- Content of the file named `n`, if it exists. -/
def Files.read (fs : Files) (n : String) : Option Bytes :=
  (fs.find? (fun e => decide (e.1 = n))).map (fun e => e.2)

/-- Create or overwrite the file named `n`. -/
def Files.write (fs : Files) (n : String) (b : Bytes) : Files :=
  (n, b) :: fs.filter (fun e => decide (e.1 ≠ n))

/-- The guarded removal `if (fs.existsSync(p)) fs.unlinkSync(p)`. -/
def Files.unlink (fs : Files) (n : String) : Files :=
  fs.filter (fun e => decide (e.1 ≠ n))

/-- Persisted state: the array of `data.json` and the cache directory. -/
structure State where
  items : List Item
  files : Files
  deriving DecidableEq

/-- State after startup on a fresh directory: `[]` and an empty cache. -/
def State.empty : State := ⟨[], []⟩

/-- Item record as `JSON.stringify` writes it and `JSON.parse` reads it back. -/
def Item.serialise (it : Item) : Item :=
  { it with name := it.name.serialise, description := it.description.serialise }

/-- The array that `loadData` reads after `saveData(items)`. -/
def saveData (items : List Item) : List Item := items.map Item.serialise

/-- The collection is one that `saveData` wrote (or the startup `[]`): saving it again changes
nothing. -/
def State.written (s : State) : Bool := decide (saveData s.items = s.items)

/-- The disk-storage stage of `upload.single("photo")`, which runs before the handler. -/
def storeUpload (fs : Files) : Option Upload → Files
  | none => fs
  | some u => fs.write u.filename u.bytes

/-- The value of `req.file ? req.file.filename : null`. -/
def uploadedName : Option Upload → Option String
  | none => none
  | some u => some u.filename

/-! ## Responses -/

/-- Response payload. -/
inductive Body where
  | json (v : JVal)
  | file (bytes : Bytes)
  | errorPage
  deriving DecidableEq

/-- HTTP response: status, `Content-Type`, payload. -/
structure Response where
  status : Nat
  contentType : String
  body : Body
  deriving DecidableEq

/-- Response of `res.status(code).json(v)`, recorded with the value `v` handed to `res.json`. -/
def jsonResponse (code : Nat) (v : JVal) : Response :=
  ⟨code, "application/json", .json v⟩

/-- The response as the client receives it: a JSON body goes through `JSON.stringify`. -/
def Response.sent (r : Response) : Response :=
  match r.body with
  | .json v => { r with body := .json v.serialise }
  | _ => r

/-- Response of the default error handler after a handler throws. -/
def serverError : Response := ⟨500, "text/html", .errorPage⟩

/-- Body `{ error: msg }`. -/
def errorObj (msg : String) : JVal := JVal.mkObj [("error", .str msg)]

/-- JSON value of `item.photo`. -/
def photoJson : Option String → JVal
  | none => .null
  | some p => .str p

/-- The expression ``item.photo ? `/inventory/${item.id}/photo` : null``. -/
def photoUrl (it : Item) : JVal :=
  if it.photoTruthy then .str ("/inventory/" ++ it.id ++ "/photo") else .null

/-- Key/value pairs of an item record. -/
def itemFields (it : Item) : List (String × JVal) :=
  [("id", .str it.id), ("name", it.name), ("description", it.description),
   ("photo", photoJson it.photo)]

/-- Item record as JSON. -/
def itemJson (it : Item) : JVal := JVal.mkObj (itemFields it)

/-- The object `{ ...item, photo_url: ... }`. -/
def itemView (it : Item) : JVal := JVal.mkObj (itemFields it ++ [("photo_url", photoUrl it)])

/-! ## Handlers -/

/-- `items.find((i) => i.id === id)` for a string `id`. -/
def findItem (items : List Item) (id : String) : Option Item :=
  items.find? (fun i => decide (i.id = id))

/-- `items.find((x) => x.id === id)` where `id` comes from a JSON body: strict equality with the
string `x.id` holds only for a string of the same content. -/
def findItemJ (items : List Item) : Option JVal → Option Item
  | some (.str s) => findItem items s
  | _ => none

/-- Apply `f` to the first item whose id is `id`: the effect on the array of mutating the object
returned by `items.find`. -/
def mutateFirst (id : String) (f : Item → Item) : List Item → List Item
  | [] => []
  | x :: xs => if x.id = id then f x :: xs else x :: mutateFirst id f xs

/-- Body fields read by `POST /register`. -/
structure RegisterBody where
  inventory_name : Option JVal
  description : Option JVal
  deriving DecidableEq

/-- Item built by `POST /register`. -/
def newItem (body : RegisterBody) (file : Option Upload) (now : Nat) : Item :=
  { id := Nat.repr now
    name := (body.inventory_name).getD .null
    description := orElse body.description (.str "")
    photo := uploadedName file }

/-- Handler `POST /register` (after the upload stage); `now` is `Date.now()` in the handler.
The destructuring of `req.body` in the first line throws when no body was parsed. -/
def register (s : State) (body : Option RegisterBody) (file : Option Upload) (now : Nat) :
    Response × State :=
  let files := storeUpload s.files file
  match body with
  | none => (serverError, ⟨s.items, files⟩)
  | some body =>
    if !truthy? body.inventory_name then
      (jsonResponse 400 (errorObj "Name is required"), ⟨s.items, files⟩)
    else
      let it := newItem body file now
      (jsonResponse 201 (itemJson it), ⟨saveData (s.items ++ [it]), files⟩)

/-- Handler `GET /inventory`. -/
def getInventory (s : State) : Response × State :=
  (jsonResponse 200 (JVal.mkArr (s.items.map itemView)), s)

/-- Handler `GET /inventory/:id`. -/
def getItem (s : State) (id : String) : Response × State :=
  match findItem s.items id with
  | none => (jsonResponse 404 (errorObj "Item not found"), s)
  | some it => (jsonResponse 200 (itemView it), s)

/-- Body fields read by `PUT /inventory/:id`. -/
structure Patch where
  name : Option JVal
  description : Option JVal
  deriving DecidableEq

/-- The two assignments of `PUT /inventory/:id`. -/
def applyPatch (p : Patch) (it : Item) : Item :=
  { it with name := nullish p.name it.name
            description := nullish p.description it.description }

/-- Handler `PUT /inventory/:id`; `req.body.name` is read after the lookup and throws when no
body was parsed. -/
def putItem (s : State) (id : String) (body : Option Patch) : Response × State :=
  match findItem s.items id with
  | none => (jsonResponse 404 (errorObj "Item not found"), s)
  | some it =>
    match body with
    | none => (serverError, s)
    | some p =>
      (jsonResponse 200
         (JVal.mkObj [("message", .str "Updated"), ("item", itemJson (applyPatch p it))]),
       ⟨saveData (mutateFirst id (applyPatch p) s.items), s.files⟩)

/-- Handler `GET /inventory/:id/photo`; `res.sendFile` on a missing file ends in the 404 error
page. -/
def getPhoto (s : State) (id : String) : Response × State :=
  match findItem s.items id with
  | none => (jsonResponse 404 (errorObj "Photo not found"), s)
  | some it =>
    match it.photo with
    | none => (jsonResponse 404 (errorObj "Photo not found"), s)
    | some p =>
      if p = "" then (jsonResponse 404 (errorObj "Photo not found"), s)
      else
        match s.files.read p with
        | some b => (⟨200, "image/jpeg", .file b⟩, s)
        | none => (⟨404, "text/html", .errorPage⟩, s)

/-- The assignment `if (req.file) item.photo = req.file.filename`. -/
def setPhoto (file : Option Upload) (it : Item) : Item :=
  match file with
  | none => it
  | some u => { it with photo := some u.filename }

/-- Handler `PUT /inventory/:id/photo` (after the upload stage). -/
def putPhoto (s : State) (id : String) (file : Option Upload) : Response × State :=
  let files := storeUpload s.files file
  match findItem s.items id with
  | none => (jsonResponse 404 (errorObj "Item not found"), ⟨s.items, files⟩)
  | some _ =>
    (jsonResponse 200 (JVal.mkObj [("message", .str "Photo updated")]),
     ⟨saveData (mutateFirst id (setPhoto file) s.items), files⟩)

/-- The photo clean-up of `DELETE /inventory/:id`. -/
def removePhoto (fs : Files) (it : Item) : Files :=
  match it.photo with
  | none => fs
  | some p => if p = "" then fs else fs.unlink p

/-- Handler `DELETE /inventory/:id`. -/
def deleteItem (s : State) (id : String) : Response × State :=
  match findItem s.items id with
  | none => (jsonResponse 404 (errorObj "Item not found"), s)
  | some it =>
    (jsonResponse 200 (JVal.mkObj [("message", .str "Deleted")]),
     ⟨saveData (s.items.filter (fun i => decide (i.id ≠ id))), removePhoto s.files it⟩)

/-- Body fields read by `POST /search`. -/
structure SearchBody where
  id : Option JVal
  has_photo : Option JVal
  deriving DecidableEq

/-- Handler `POST /search`; the destructuring of `req.body` in the first line throws when no
body was parsed. -/
def search (s : State) (body : Option SearchBody) : Response × State :=
  match body with
  | none => (serverError, s)
  | some body =>
    match findItemJ s.items body.id with
    | none => (jsonResponse 404 (errorObj "Item not found"), s)
    | some it =>
      let result := [("id", JVal.str it.id), ("name", it.name), ("description", it.description)]
      let result :=
        if truthy? body.has_photo then result ++ [("photo_url", photoUrl it)] else result
      (jsonResponse 200 (JVal.mkObj result), s)

/-! ## Request sequences -/

/-- Requests that reach a handler of the service. -/
inductive Request where
  | register (body : Option RegisterBody) (file : Option Upload) (now : Nat)
  | getInventory
  | getItem (id : String)
  | putItem (id : String) (body : Option Patch)
  | getPhoto (id : String)
  | putPhoto (id : String) (file : Option Upload)
  | deleteItem (id : String)
  | search (body : Option SearchBody)
  deriving DecidableEq

/-- Dispatch of one request. -/
def handle (s : State) : Request → Response × State
  | .register body file now => register s body file now
  | .getInventory => getInventory s
  | .getItem id => getItem s id
  | .putItem id p => putItem s id p
  | .getPhoto id => getPhoto s id
  | .putPhoto id file => putPhoto s id file
  | .deleteItem id => deleteItem s id
  | .search body => search s body

/-- State after handling the requests in order. -/
def run (s : State) : List Request → State
  | [] => s
  | r :: rs => run (handle s r).2 rs

/-! ## Derived notions used by the statements -/

/-- Ids of the persisted items, in order. -/
def ids (s : State) : List String := s.items.map (fun it => it.id)

/-- Clock readings that mint an id: those of the register requests that pass the name check. -/
def mintedClocks : List Request → List Nat
  | [] => []
  | .register (some body) _ now :: rs =>
    if truthy? body.inventory_name then now :: mintedClocks rs else mintedClocks rs
  | _ :: rs => mintedClocks rs

/-- Stored names given by the upload stage to the files of the requests, in order (the stage
runs for every `POST /register` and `PUT /inventory/:id/photo` that carries a file). -/
def storedNames : List Request → List String
  | [] => []
  | .register _ (some u) _ :: rs => u.filename :: storedNames rs
  | .putPhoto _ (some u) :: rs => u.filename :: storedNames rs
  | _ :: rs => storedNames rs

/-- The `name` values that `PUT /inventory/:id` requests of the sequence carry. -/
def patchNames : List Request → List (Option JVal)
  | [] => []
  | .putItem _ (some p) :: rs => p.name :: patchNames rs
  | _ :: rs => patchNames rs

/-- One `POST /register` request: body fields, optional photo file, clock reading. -/
structure Registration where
  body : RegisterBody
  file : Option Upload
  now : Nat
  deriving DecidableEq

/-- The request of a registration. -/
def Registration.request (r : Registration) : Request := .register (some r.body) r.file r.now

/-- The item a registration creates, as `saveData` persists it. -/
def Registration.item (r : Registration) : Item := (newItem r.body r.file r.now).serialise

/-- Specification-side bookkeeping (not part of the service): effect of one request, handled in
state `s`, on "the bytes most recently uploaded for the item with id `i`" (`acc`).  A successful
registration that creates the item with id `i` sets them to its file (none without a file), a
`PUT /inventory/i/photo` with a file on an existing item replaces them, deleting the item clears
them. -/
def uploadStep (i : String) (s : State) (acc : Option Bytes) : Request → Option Bytes
  | .register (some body) file now =>
    if truthy? body.inventory_name && decide (Nat.repr now = i) then
      file.map (fun u => u.bytes)
    else acc
  | .putPhoto j (some u) =>
    if decide (j = i) && (findItem s.items i).isSome then some u.bytes else acc
  | .deleteItem j => if j = i then none else acc
  | _ => acc

/-- Specification-side bookkeeping: the bytes most recently uploaded for the item with id `i`
after the requests `rs`, handled from state `s` in which they are `acc`. -/
def latestUpload (i : String) : State → Option Bytes → List Request → Option Bytes
  | _, acc, [] => acc
  | s, acc, r :: rs => latestUpload i (handle s r).2 (uploadStep i s acc r) rs

/-- Invariant relating the collection, the cache directory and the latest uploads `acc` (per
id), together with what the remaining requests `future` must satisfy: ids are pairwise distinct
and differ from the ids still to be minted, the stored names still to be given are pairwise
distinct and differ from the photos in use, no two items share a photo, and every photo in use
names an existing file that holds the latest upload of its item. -/
structure PhotoInv (s : State) (acc : String → Option Bytes) (future : List Request) : Prop where
  idsNodup : (ids s).Nodup
  idsFresh : ∀ t ∈ mintedClocks future, Nat.repr t ∉ ids s
  clocksNodup : (mintedClocks future).Nodup
  namesNodup : (storedNames future).Nodup
  namesFresh : ∀ it ∈ s.items, ∀ p, it.photo = some p → p ∉ storedNames future
  photoOwner : ∀ it1 ∈ s.items, ∀ it2 ∈ s.items, ∀ p,
    it1.photo = some p → it2.photo = some p → it1.id = it2.id
  photoStored : ∀ it ∈ s.items, ∀ p, it.photo = some p →
    p ≠ "" ∧ ∃ b, s.files.read p = some b ∧ acc it.id = some b

/-- Numeric value of a decimal digit character. -/
def digitVal (c : Char) : Nat := c.toNat - 48

/-- Numeric value of a digit string read from the most significant digit, starting at `acc`. -/
def decodeFrom (acc : Nat) (ds : List Char) : Nat :=
  ds.foldl (fun a c => a * 10 + digitVal c) acc

/-! ## Concrete inputs -/

/-- One item, no photo. -/
def widget : Item := ⟨"1", .str "Widget", .str "old", none⟩

/-- State holding only `widget`. -/
def widgetState : State := ⟨[widget], []⟩

/-- Item with a stored photo. -/
def gadget : Item := ⟨"2", .str "Gadget", .str "", some "7-3.png"⟩

/-- State holding `widget` and `gadget`, with the photo file of `gadget`. -/
def shopState : State := ⟨[widget, gadget], [("7-3.png", [1, 2, 3])]⟩

/-- Two registrations handled at the same clock reading. -/
def sameTick : List Registration :=
  [⟨⟨some (.str "A"), none⟩, none, 5⟩, ⟨⟨some (.str "B"), none⟩, none, 5⟩]

/-- Two registrations at different clock readings, the second with a photo. -/
def twoTicks : List Registration :=
  [⟨⟨some (.str "A"), none⟩, none, 5⟩,
   ⟨⟨some (.str "B"), some (.str "d")⟩, some ⟨6, 12, ".png", [7, 7]⟩, 6⟩]

/-- Register an item, then send an empty name to `PUT /inventory/:id`. -/
def emptyRename : List Request :=
  [.register (some ⟨some (.str "Widget"), none⟩) none 1,
   .putItem "1" (some ⟨some (.str ""), none⟩)]

/-- Register, rename, replace the photo, delete. -/
def lifecycle : List Request :=
  [.register (some ⟨some (.str "Widget"), none⟩) none 1,
   .register (some ⟨some (.str "Gadget"), none⟩) (some ⟨2, 40, ".jpg", [1]⟩) 2,
   .putItem "1" (some ⟨some (.str "Widget2"), some .null⟩),
   .putPhoto "1" (some ⟨3, 41, ".jpg", [2, 2]⟩),
   .putPhoto "2" (some ⟨4, 42, ".jpg", [3, 3, 3]⟩),
   .deleteItem "1"]

/-- Two registrations with distinct ids whose uploads get the same stored name: same clock
reading in the `filename` callback, same random integer, same extension. -/
def nameClash : List Request :=
  [.register (some ⟨some (.str "A"), none⟩) (some ⟨5, 7, ".jpg", [1]⟩) 5,
   .register (some ⟨some (.str "B"), none⟩) (some ⟨5, 7, ".jpg", [2]⟩) 6]

/-- Two registrations with photos handled at the same clock reading. -/
def idClash : List Request :=
  [.register (some ⟨some (.str "A"), none⟩) (some ⟨5, 1, ".jpg", [1]⟩) 5,
   .register (some ⟨some (.str "B"), none⟩) (some ⟨5, 2, ".jpg", [2]⟩) 5]

/-- Item whose description is `Infinity`: what `loadData` reads from a `data.json` that holds an
overflowing literal such as `1e400` (a file the service itself never writes). -/
def overflowed : Item := ⟨"2", .str "Gadget", .num Dbl.infinity, none⟩

/-- State read from such a file. -/
def handEdited : State := ⟨[widget, overflowed], []⟩

/-! ## Lemmas on lookup and in-place mutation -/

theorem findItem_split {items : List Item} {i : String} {it : Item}
    (h : findItem items i = some it) :
    ∃ pre post, items = pre ++ it :: post ∧ (∀ x ∈ pre, x.id ≠ i) ∧ it.id = i := by
  induction items with
  | nil => simp [findItem] at h
  | cons x xs ih =>
    by_cases hx : x.id = i
    · have : it = x := by simpa [findItem, List.find?, hx] using h.symm
      subst this
      exact ⟨[], xs, rfl, by simp, hx⟩
    · have h2 : findItem xs i = some it := by simpa [findItem, List.find?, hx] using h
      obtain ⟨pre, post, e, hpre, hid⟩ := ih h2
      refine ⟨x :: pre, post, by simp [e], ?_, hid⟩
      intro y hy
      rcases List.mem_cons.1 hy with rfl | hy
      · exact hx
      · exact hpre y hy

theorem findItem_append_of_fresh (pre post : List Item) (i : String) (it : Item)
    (hpre : ∀ x ∈ pre, x.id ≠ i) (hid : it.id = i) :
    findItem (pre ++ it :: post) i = some it := by
  induction pre with
  | nil => simp [findItem, List.find?, hid]
  | cons x xs ih =>
    have hx : x.id ≠ i := hpre x (by simp)
    have := ih (fun y hy => hpre y (by simp [hy]))
    simpa [findItem, List.find?, hx] using this

theorem mutateFirst_split (pre post : List Item) (i : String) (it : Item) (f : Item → Item)
    (hpre : ∀ x ∈ pre, x.id ≠ i) (hid : it.id = i) :
    mutateFirst i f (pre ++ it :: post) = pre ++ f it :: post := by
  induction pre with
  | nil => simp [mutateFirst, hid]
  | cons x xs ih =>
    have hx : x.id ≠ i := hpre x (by simp)
    have := ih (fun y hy => hpre y (by simp [hy]))
    simp [mutateFirst, hx, this]

theorem findItem_none_iff {items : List Item} {i : String} :
    findItem items i = none ↔ ∀ x ∈ items, x.id ≠ i := by
  simp [findItem, List.find?_eq_none]

theorem nullish_of_ne_null (v b : JVal) (h : v ≠ .null) : nullish (some v) b = v := by
  cases v <;> simp [nullish] at h ⊢

theorem Files.read_unlink (fs : Files) (n : String) : (Files.unlink fs n).read n = none := by
  simp [Files.read, Files.unlink, List.find?_eq_none]

/-! ## JSON serialisation -/

mutual
theorem JVal.serialise_idem : ∀ v : JVal, v.serialise.serialise = v.serialise
  | .null => rfl
  | .bool _ => rfl
  | .num d => by
    simp only [JVal.serialise]
    split
    · split
      · have h1 : Dbl.zero.isFinite = true := by decide
        have h2 : Dbl.zero.isZero = true := by decide
        simp [JVal.serialise, h1, h2]
      · simp [JVal.serialise, *]
    · rfl
  | .str _ => rfl
  | .arr xs => by simp only [JVal.serialise, JList.serialise_elems_idem xs]
  | .obj kvs => by simp only [JVal.serialise, JFields.serialise_fields_idem kvs]
theorem JList.serialise_elems_idem : ∀ xs : JList, xs.serialise.serialise = xs.serialise
  | .nil => rfl
  | .cons v rest => by
    simp only [JList.serialise, JVal.serialise_idem v, JList.serialise_elems_idem rest]
theorem JFields.serialise_fields_idem : ∀ kvs : JFields, kvs.serialise.serialise = kvs.serialise
  | .nil => rfl
  | .cons k v rest => by
    simp only [JFields.serialise, JVal.serialise_idem v, JFields.serialise_fields_idem rest]
end

mutual
theorem JVal.serialise_of_numberFree : ∀ v : JVal, v.numberFree = true → v.serialise = v
  | .null, _ => rfl
  | .bool _, _ => rfl
  | .num d, h => by simp [JVal.numberFree] at h
  | .str _, _ => rfl
  | .arr xs, h => by
    simp only [JVal.numberFree] at h
    simp only [JVal.serialise, JList.serialise_elems_of_numberFree xs h]
  | .obj kvs, h => by
    simp only [JVal.numberFree] at h
    simp only [JVal.serialise, JFields.serialise_fields_of_numberFree kvs h]
theorem JList.serialise_elems_of_numberFree : ∀ xs : JList, xs.numberFree = true → xs.serialise = xs
  | .nil, _ => rfl
  | .cons v rest, h => by
    simp only [JList.numberFree, Bool.and_eq_true] at h
    simp only [JList.serialise, JVal.serialise_of_numberFree v h.1,
      JList.serialise_elems_of_numberFree rest h.2]
theorem JFields.serialise_fields_of_numberFree :
    ∀ kvs : JFields, kvs.numberFree = true → kvs.serialise = kvs
  | .nil, _ => rfl
  | .cons k v rest, h => by
    simp only [JFields.numberFree, Bool.and_eq_true] at h
    simp only [JFields.serialise, JVal.serialise_of_numberFree v h.1,
      JFields.serialise_fields_of_numberFree rest h.2]
end

theorem JVal.serialise_eq_empty {v : JVal} (h : v.serialise = .str "") : v = .str "" := by
  cases v with
  | num d =>
    simp only [JVal.serialise] at h
    split at h
    · split at h <;> cases h
    · cases h
  | str s => simpa [JVal.serialise] using h
  | null => cases h
  | bool b => cases h
  | arr xs => cases h
  | obj kvs => cases h

theorem Item.serialise_item_idem (it : Item) : it.serialise.serialise = it.serialise := by
  simp [Item.serialise, JVal.serialise_idem]

theorem saveData_idem (l : List Item) : saveData (saveData l) = saveData l := by
  simp [saveData, Item.serialise_item_idem]

theorem saveData_append (l1 l2 : List Item) :
    saveData (l1 ++ l2) = saveData l1 ++ saveData l2 := by
  simp [saveData]

theorem map_id_saveData (l : List Item) :
    (saveData l).map (fun it => it.id) = l.map (fun it => it.id) := by
  simp [saveData, Item.serialise]

theorem mem_saveData {l : List Item} {x : Item} (h : x ∈ saveData l) :
    ∃ y ∈ l, x = y.serialise := by
  obtain ⟨y, hy, e⟩ := List.mem_map.1 h
  exact ⟨y, hy, e.symm⟩

theorem written_split {s : State} {pre post : List Item} {it : Item}
    (hw : s.written = true) (e : s.items = pre ++ it :: post) :
    saveData pre = pre ∧ it.serialise = it ∧ saveData post = post := by
  have h : saveData s.items = s.items := by simpa [State.written] using hw
  rw [e] at h
  simp only [saveData, List.map_append, List.map_cons] at h
  have h1 := List.append_inj h (by simp)
  have h2 := List.cons.inj h1.2
  exact ⟨h1.1, h2.1, h2.2⟩

theorem written_saveData (l : List Item) (fs : Files) : (State.mk (saveData l) fs).written = true := by
  simp [State.written, saveData_idem]

/-! ## Partial update (`PUT /inventory/:id`) -/

/-- C1 (as amended): when a collection written by the service contains an item with id `i`
(`it` is the first such item) and the body of `PUT /inventory/i` carries only a description `d`
that is not `null` and contains no number, the request answers 200 and the persisted collection
is the old one with `it` replaced, in place, by the record with the same id, name and photo and
description `d`; all other items are unchanged. -/
theorem put_description_only (s : State) (i : String) (it : Item) (d : JVal)
    (hw : s.written = true) (h : findItem s.items i = some it)
    (hd : d ≠ .null) (hn : d.numberFree = true) :
    (putItem s i (some ⟨none, some d⟩)).1.status = 200 ∧
    ∃ pre post, s.items = pre ++ it :: post ∧ (∀ x ∈ pre, x.id ≠ i) ∧
      (putItem s i (some ⟨none, some d⟩)).2.items
        = pre ++ ⟨it.id, it.name, d, it.photo⟩ :: post := by
  obtain ⟨pre, post, e, hpre, hid⟩ := findItem_split h
  obtain ⟨w1, w2, w3⟩ := written_split hw e
  refine ⟨by simp [putItem, h, jsonResponse], pre, post, e, hpre, ?_⟩
  simp only [putItem, h]
  rw [e, mutateFirst_split pre post i it _ hpre hid, saveData_append]
  have hname : it.name.serialise = it.name := by
    have := congrArg Item.name w2
    simpa [Item.serialise] using this
  have hnew : (applyPatch ⟨none, some d⟩ it).serialise = ⟨it.id, it.name, d, it.photo⟩ := by
    simp [Item.serialise, applyPatch, nullish, nullish_of_ne_null d _ hd, hname,
      JVal.serialise_of_numberFree d hn]
  have hcons : saveData (applyPatch ⟨none, some d⟩ it :: post)
      = (applyPatch ⟨none, some d⟩ it).serialise :: saveData post := rfl
  rw [hcons, w1, w3, hnew]

theorem put_description_only_witness :
    shopState.written = true ∧ findItem shopState.items "2" = some gadget ∧
    (putItem shopState "2" (some ⟨none, some (.str "new")⟩)).1.status = 200 ∧
    ∃ pre post, shopState.items = pre ++ gadget :: post ∧ (∀ x ∈ pre, x.id ≠ "2") ∧
      (putItem shopState "2" (some ⟨none, some (.str "new")⟩)).2.items
        = pre ++ ⟨gadget.id, gadget.name, .str "new", gadget.photo⟩ :: post :=
  ⟨by decide, by decide,
    put_description_only shopState "2" gadget (.str "new") (by decide) (by decide) (by decide)
      (by decide)⟩

/-- C1 (as stated) fails in three ways.  A body that carries only the description `null` leaves
the persisted description at its prior value.  A body whose description is the number
`Infinity` (the parsed value of `1e400`) is persisted as `null`.  And on a collection read from
a file holding such a literal, a `PUT` on item "1" rewrites item "2" as well. -/
theorem put_description_not_stored :
    widget ∈ widgetState.items ∧
    ¬ (∀ it ∈ (putItem widgetState "1" (some ⟨none, some .null⟩)).2.items,
        it.id = "1" → it.description = .null) ∧
    ¬ (∀ it ∈ (putItem widgetState "1" (some ⟨none, some (.num Dbl.infinity)⟩)).2.items,
        it.id = "1" → it.description = .num Dbl.infinity) ∧
    (overflowed ∈ handEdited.items ∧
      overflowed ∉ (putItem handEdited "1" (some ⟨none, some (.str "new")⟩)).2.items) := by
  decide

/-- C2 (as amended): when a collection written by the service contains an item with id `i`,
after `PUT /inventory/i` the persisted item with id `i` has, for each of `name` and
`description`, the patch's value when the patch carries a value that is not `null` and contains
no number (the empty string included), and its prior value when the field is absent from the
patch or is an explicit `null`; id and photo are unchanged. -/
theorem put_fields (s : State) (i : String) (it : Item) (p : Patch)
    (hw : s.written = true) (h : findItem s.items i = some it) :
    ∃ it2, findItem (putItem s i (some p)).2.items i = some it2 ∧
      it2.id = it.id ∧ it2.photo = it.photo ∧
      (∀ v, p.name = some v → v ≠ .null → v.numberFree = true → it2.name = v) ∧
      (p.name = some (.str "") → it2.name = .str "") ∧
      (p.name = none ∨ p.name = some .null → it2.name = it.name) ∧
      (∀ v, p.description = some v → v ≠ .null → v.numberFree = true → it2.description = v) ∧
      (p.description = some (.str "") → it2.description = .str "") ∧
      (p.description = none ∨ p.description = some .null → it2.description = it.description) := by
  obtain ⟨pre, post, e, hpre, hid⟩ := findItem_split h
  obtain ⟨w1, w2, w3⟩ := written_split hw e
  have hname : it.name.serialise = it.name := by
    have := congrArg Item.name w2
    simpa [Item.serialise] using this
  have hdesc : it.description.serialise = it.description := by
    have := congrArg Item.description w2
    simpa [Item.serialise] using this
  refine ⟨(applyPatch p it).serialise, ?_, rfl, rfl, ?_, ?_, ?_, ?_, ?_, ?_⟩
  · simp only [putItem, h]
    rw [e, mutateFirst_split pre post i it _ hpre hid, saveData_append]
    simp only [saveData, List.map_cons]
    refine findItem_append_of_fresh _ _ i _ ?_ hid
    intro x hx
    obtain ⟨y, hy, rfl⟩ := List.mem_map.1 hx
    exact hpre y hy
  · intro v hv hn hf
    simp [Item.serialise, applyPatch, hv, nullish_of_ne_null v _ hn,
      JVal.serialise_of_numberFree v hf]
  · intro hv
    simp [Item.serialise, applyPatch, hv, nullish, JVal.serialise]
  · rintro (hv | hv) <;> simp [Item.serialise, applyPatch, hv, nullish, hname]
  · intro v hv hn hf
    simp [Item.serialise, applyPatch, hv, nullish_of_ne_null v _ hn,
      JVal.serialise_of_numberFree v hf]
  · intro hv
    simp [Item.serialise, applyPatch, hv, nullish, JVal.serialise]
  · rintro (hv | hv) <;> simp [Item.serialise, applyPatch, hv, nullish, hdesc]

theorem put_fields_witness :
    shopState.written = true ∧ findItem shopState.items "2" = some gadget ∧
    ∃ it2, findItem (putItem shopState "2" (some ⟨some (.str ""), none⟩)).2.items "2"
        = some it2 ∧
      it2.id = gadget.id ∧ it2.photo = gadget.photo ∧
      (∀ v, (Patch.mk (some (.str "")) none).name = some v → v ≠ .null →
        v.numberFree = true → it2.name = v) ∧
      ((Patch.mk (some (.str "")) none).name = some (.str "") → it2.name = .str "") ∧
      ((Patch.mk (some (.str "")) none).name = none ∨
        (Patch.mk (some (.str "")) none).name = some .null → it2.name = gadget.name) ∧
      (∀ v, (Patch.mk (some (.str "")) none).description = some v → v ≠ .null →
        v.numberFree = true → it2.description = v) ∧
      ((Patch.mk (some (.str "")) none).description = some (.str "") →
        it2.description = .str "") ∧
      ((Patch.mk (some (.str "")) none).description = none ∨
        (Patch.mk (some (.str "")) none).description = some .null →
        it2.description = gadget.description) :=
  ⟨by decide, by decide,
    put_fields shopState "2" gadget ⟨some (.str ""), none⟩ (by decide) (by decide)⟩

/-- C2 (as stated) fails in two ways.  A patch whose `name` is an explicit `null` does not store
`null`: the persisted name stays `"Widget"`.  A patch whose `name` is the number `Infinity` (the
parsed value of `1e400`) does not store that number: the persisted name is `null`. -/
theorem put_name_not_stored :
    findItem widgetState.items "1" = some widget ∧
    (findItem (putItem widgetState "1" (some ⟨some .null, none⟩)).2.items "1").map
      (fun x => x.name) = some (.str "Widget") ∧
    (findItem (putItem widgetState "1" (some ⟨some .null, none⟩)).2.items "1").map
      (fun x => x.name) ≠ some .null ∧
    (findItem (putItem widgetState "1" (some ⟨some (.num Dbl.infinity), none⟩)).2.items "1").map
      (fun x => x.name) = some .null ∧
    (findItem (putItem widgetState "1" (some ⟨some (.num Dbl.infinity), none⟩)).2.items "1").map
      (fun x => x.name) ≠ some (.num Dbl.infinity) := by
  decide

/-! ## Serialised responses -/

theorem JVal.serialise_mkArr (xs : List JVal) :
    (JVal.mkArr xs).serialise = JVal.mkArr (xs.map JVal.serialise) := by
  simp only [JVal.mkArr, JVal.serialise]
  congr 1
  induction xs with
  | nil => rfl
  | cons x xs ih => simp [JList.serialise, ih]

theorem JVal.serialise_mkObj (kvs : List (String × JVal)) :
    (JVal.mkObj kvs).serialise = JVal.mkObj (kvs.map (fun kv => (kv.1, kv.2.serialise))) := by
  simp only [JVal.mkObj, JVal.serialise]
  congr 1
  induction kvs with
  | nil => rfl
  | cons kv kvs ih => simp [JFields.serialise, ih]

theorem itemView_serialise (it : Item) :
    (itemView it.serialise).serialise = (itemView it).serialise := by
  simp [itemView, itemFields, JVal.serialise_mkObj, JVal.serialise_idem, Item.serialise,
    photoUrl, Item.photoTruthy]

theorem listing_saveData (l : List Item) :
    (jsonResponse 200 (JVal.mkArr ((saveData l).map itemView))).sent
      = (jsonResponse 200 (JVal.mkArr (l.map itemView))).sent := by
  simp only [jsonResponse, Response.sent, JVal.serialise_mkArr, saveData, List.map_map]
  congr 3
  apply List.map_congr_left
  intro x _
  exact itemView_serialise x

/-! ## Register without a name -/

/-- With a parsed body (multipart, JSON or urlencoded), a missing or empty `inventory_name`
makes `POST /register` answer 400 and leaves the persisted collection as it was, with or without
an accompanying photo file. -/
theorem register_without_name (s : State) (name desc : Option JVal) (file : Option Upload)
    (now : Nat) (h : name = none ∨ name = some (.str "")) :
    (register s (some ⟨name, desc⟩) file now).1.status = 400 ∧
    (register s (some ⟨name, desc⟩) file now).2.items = s.items := by
  rcases h with rfl | rfl <;> simp [register, truthy?, JVal.truthy, jsonResponse]

/-- C5 fails on the code for a request without a parsed body (so without `inventory_name`): the
destructuring of `req.body` throws before the name check, and the answer is the 500 error page
instead of 400.  The collection and the cache directory are left as they were. -/
theorem register_absent_body (s : State) (now : Nat) :
    (register s none none now).1.status = 500 ∧
    (register s none none now).1.status ≠ 400 ∧
    (register s none none now).2 = s := by
  refine ⟨rfl, ?_, rfl⟩
  simp [register, serverError]

/-! ## Search -/

/-- C8: when the collection contains an item with id `i` (`it` is the first such item),
`POST /search` with that id answers 200 with a JSON object carrying that item's id, name and
description; with `has_photo: true` the object has a `photo_url` key, `null` when the item's
photo is `null` and `"/inventory/{id}/photo"` when the item has a stored photo name; with
`has_photo` omitted or `false` the object has no `photo_url` key. -/
theorem search_found (s : State) (i : String) (it : Item) (hp : Option JVal)
    (h : findItem s.items i = some it) :
    (search s (some ⟨some (.str i), hp⟩)).1.status = 200 ∧
    ∃ o, (search s (some ⟨some (.str i), hp⟩)).1.body = .json o ∧
      o.get? "id" = some (.str i) ∧ it.id = i ∧
      o.get? "name" = some it.name ∧
      o.get? "description" = some it.description ∧
      (hp = some (.bool true) →
        (it.photo = none → o.get? "photo_url" = some .null) ∧
        (∀ p, it.photo = some p → p ≠ "" →
          o.get? "photo_url" = some (.str ("/inventory/" ++ i ++ "/photo")))) ∧
      (hp = none ∨ hp = some (.bool false) → o.hasKey "photo_url" = false) := by
  obtain ⟨_, _, _, _, hid⟩ := findItem_split h
  refine ⟨by simp [search, findItemJ, h, jsonResponse], ?_⟩
  simp only [search, findItemJ, h, jsonResponse]
  refine ⟨_, rfl, ?_, hid, ?_, ?_, ?_, ?_⟩
  · cases hb : truthy? hp <;> simp [JVal.mkObj, JVal.get?, JFields.get?, hid]
  · cases hb : truthy? hp <;> simp [JVal.mkObj, JVal.get?, JFields.get?]
  · cases hb : truthy? hp <;> simp [JVal.mkObj, JVal.get?, JFields.get?]
  · rintro rfl
    refine ⟨fun hn => ?_, fun p hpe hne => ?_⟩
    · simp [truthy?, JVal.truthy, JVal.mkObj, JVal.get?, JFields.get?, photoUrl,
        Item.photoTruthy, hn]
    · simp [truthy?, JVal.truthy, JVal.mkObj, JVal.get?, JFields.get?, photoUrl,
        Item.photoTruthy, hpe, hne, hid]
  · rintro (rfl | rfl) <;>
      simp [truthy?, JVal.truthy, JVal.mkObj, JVal.hasKey, JFields.keys]

theorem search_found_witness :
    (search shopState (some ⟨some (.str "2"), some (.bool true)⟩)).1.status = 200 ∧
    ∃ o, (search shopState (some ⟨some (.str "2"), some (.bool true)⟩)).1.body = .json o ∧
      o.get? "id" = some (.str "2") ∧ gadget.id = "2" ∧
      o.get? "name" = some gadget.name ∧
      o.get? "description" = some gadget.description ∧
      (some (JVal.bool true) = some (.bool true) →
        (gadget.photo = none → o.get? "photo_url" = some .null) ∧
        (∀ p, gadget.photo = some p → p ≠ "" →
          o.get? "photo_url" = some (.str ("/inventory/" ++ "2" ++ "/photo")))) ∧
      (some (JVal.bool true) = none ∨ some (JVal.bool true) = some (.bool false) →
        o.hasKey "photo_url" = false) :=
  search_found shopState "2" gadget (some (.bool true)) (by decide)

/-! ## Unknown id -/

/-- C9: when no item of the collection has id `i`, each id-addressed request (`GET` and `PUT
/inventory/i`, `GET` and `PUT /inventory/i/photo`, `DELETE /inventory/i`, `POST /search` with
id `i`) answers 404 and leaves the persisted collection as it was. -/
theorem unknown_id_404 (s : State) (i : String) (body : Option Patch) (file : Option Upload)
    (hp : Option JVal) (h : findItem s.items i = none) :
    ((getItem s i).1.status = 404 ∧ (getItem s i).2.items = s.items) ∧
    ((putItem s i body).1.status = 404 ∧ (putItem s i body).2.items = s.items) ∧
    ((getPhoto s i).1.status = 404 ∧ (getPhoto s i).2.items = s.items) ∧
    ((putPhoto s i file).1.status = 404 ∧ (putPhoto s i file).2.items = s.items) ∧
    ((deleteItem s i).1.status = 404 ∧ (deleteItem s i).2.items = s.items) ∧
    ((search s (some ⟨some (.str i), hp⟩)).1.status = 404 ∧
      (search s (some ⟨some (.str i), hp⟩)).2.items = s.items) := by
  simp [getItem, putItem, getPhoto, putPhoto, deleteItem, search, findItemJ, h, jsonResponse]

theorem unknown_id_404_witness :
    ((getItem shopState "3").1.status = 404 ∧ (getItem shopState "3").2.items = shopState.items) ∧
    ((putItem shopState "3" (some ⟨some (.str "x"), none⟩)).1.status = 404 ∧
      (putItem shopState "3" (some ⟨some (.str "x"), none⟩)).2.items = shopState.items) ∧
    ((getPhoto shopState "3").1.status = 404 ∧
      (getPhoto shopState "3").2.items = shopState.items) ∧
    ((putPhoto shopState "3" (some ⟨9, 4, ".jpg", [5]⟩)).1.status = 404 ∧
      (putPhoto shopState "3" (some ⟨9, 4, ".jpg", [5]⟩)).2.items = shopState.items) ∧
    ((deleteItem shopState "3").1.status = 404 ∧
      (deleteItem shopState "3").2.items = shopState.items) ∧
    ((search shopState (some ⟨some (.str "3"), none⟩)).1.status = 404 ∧
      (search shopState (some ⟨some (.str "3"), none⟩)).2.items = shopState.items) :=
  unknown_id_404 shopState "3" (some ⟨some (.str "x"), none⟩) (some ⟨9, 4, ".jpg", [5]⟩) none
    (by decide)

/-! ## Delete -/

theorem filter_ne_split (pre post : List Item) (it : Item) (i : String)
    (hpre : ∀ x ∈ pre, x.id ≠ i) (hpost : ∀ x ∈ post, x.id ≠ i) (hid : it.id = i) :
    (pre ++ it :: post).filter (fun x => decide (x.id ≠ i)) = pre ++ post := by
  rw [List.filter_append, List.filter_cons_of_neg (by simpa using hid)]
  rw [List.filter_eq_self.2 (fun x hx => by simpa using hpre x hx),
    List.filter_eq_self.2 (fun x hx => by simpa using hpost x hx)]

theorem nodup_split_post (pre post : List Item) (it : Item) (i : String)
    (hnd : ((pre ++ it :: post).map (fun x => x.id)).Nodup) (hid : it.id = i) :
    ∀ y ∈ post, y.id ≠ i := by
  intro y hy hyj
  rw [List.map_append, List.map_cons] at hnd
  have h2 := (List.nodup_append.1 hnd).2.1
  have h3 : it.id ∉ post.map (fun x => x.id) := (List.nodup_cons.1 h2).1
  apply h3
  rw [hid, ← hyj]
  exact List.mem_map_of_mem _ hy

/-- C6 (as amended): when the ids of the collection are pairwise distinct and `it` is the item
with id `i`, `DELETE /inventory/i` answers 200 whatever the cache directory holds; the listing
that the following `GET /inventory` sends is the JSON of exactly the other items, in their
original order, and no item of the collection has id `i`; if the deleted item had a stored
photo name, no file of that name is in the cache directory afterwards; and a second
`DELETE /inventory/i` answers 404. -/
theorem delete_found (s : State) (i : String) (it : Item)
    (hu : (ids s).Nodup) (h : findItem s.items i = some it) :
    (deleteItem s i).1.status = 200 ∧
    (∃ pre post, s.items = pre ++ it :: post ∧
      (getInventory (deleteItem s i).2).1.sent
        = (jsonResponse 200 (JVal.mkArr ((pre ++ post).map itemView))).sent) ∧
    (∀ x ∈ (deleteItem s i).2.items, x.id ≠ i) ∧
    (∀ x ∈ s.items, x.id = i → ∀ p, x.photo = some p → p ≠ "" →
      (deleteItem s i).2.files.read p = none) ∧
    (deleteItem (deleteItem s i).2 i).1.status = 404 := by
  obtain ⟨pre, post, e, hpre, hid⟩ := findItem_split h
  have hpost : ∀ y ∈ post, y.id ≠ i := by
    apply nodup_split_post pre post it i _ hid
    simpa [ids, e] using hu
  have hst : (deleteItem s i).2
      = ⟨saveData (s.items.filter (fun x => decide (x.id ≠ i))), removePhoto s.files it⟩ := by
    simp only [deleteItem, h]
  have hfil : s.items.filter (fun x => decide (x.id ≠ i)) = pre ++ post := by
    rw [e]; exact filter_ne_split pre post it i hpre hpost hid
  have hno : ∀ x ∈ (deleteItem s i).2.items, x.id ≠ i := by
    intro x hx
    rw [hst, hfil] at hx
    obtain ⟨y, hy, rfl⟩ := mem_saveData hx
    rcases List.mem_append.1 hy with hy | hy
    · exact hpre y hy
    · exact hpost y hy
  refine ⟨by simp [deleteItem, h, jsonResponse], ⟨pre, post, e, ?_⟩, hno, ?_, ?_⟩
  · rw [hst, hfil]
    exact listing_saveData (pre ++ post)
  · intro x hx hxi p hp hne
    have hxit : x = it := by
      rw [e] at hx
      rcases List.mem_append.1 hx with hx | hx
      · exact absurd hxi (hpre x hx)
      · rcases List.mem_cons.1 hx with hx | hx
        · exact hx
        · exact absurd hxi (hpost x hx)
    subst hxit
    rw [hst]
    simp only [removePhoto, hp, if_neg hne]
    exact Files.read_unlink s.files p
  · have hnone : findItem (deleteItem s i).2.items i = none := findItem_none_iff.2 hno
    generalize deleteItem s i = r at hnone
    simp only [deleteItem, hnone, jsonResponse]

theorem delete_found_witness :
    (ids shopState).Nodup ∧
    (deleteItem shopState "2").1.status = 200 ∧
    (∃ pre post, shopState.items = pre ++ gadget :: post ∧
      (getInventory (deleteItem shopState "2").2).1.sent
        = (jsonResponse 200 (JVal.mkArr ((pre ++ post).map itemView))).sent) ∧
    (∀ x ∈ (deleteItem shopState "2").2.items, x.id ≠ "2") ∧
    (∀ x ∈ shopState.items, x.id = "2" → ∀ p, x.photo = some p → p ≠ "" →
      (deleteItem shopState "2").2.files.read p = none) ∧
    (deleteItem (deleteItem shopState "2").2 "2").1.status = 404 :=
  ⟨by decide, delete_found shopState "2" gadget (by decide) (by decide)⟩

/-- C6 (as stated) fails on a collection in which two items share an id (reached by two
registrations at the same clock reading): `DELETE /inventory/5` answers 200 and removes both
items from the collection, but only the first item's file is unlinked; the photo file
`5-2.jpg` of the second deleted item is still in the cache directory. -/
theorem delete_leaves_second_photo :
    ∃ it ∈ (run State.empty idClash).items,
      it.id = "5" ∧ it.photo = some "5-2.jpg" ∧
      (deleteItem (run State.empty idClash) "5").1.status = 200 ∧
      it ∉ (deleteItem (run State.empty idClash) "5").2.items ∧
      (deleteItem (run State.empty idClash) "5").2.files.read "5-2.jpg" = some [2] := by
  decide

/-! ## Decimal rendering of clock readings -/

theorem digitVal_digitChar (k : Nat) (h : k < 10) : digitVal (Nat.digitChar k) = k := by
  interval_cases k <;> rfl

theorem decodeFrom_toDigitsCore (fuel : Nat) :
    ∀ (n : Nat) (ds : List Char), n < fuel →
      decodeFrom 0 (Nat.toDigitsCore 10 fuel n ds) = decodeFrom n ds := by
  induction fuel with
  | zero => intro n ds h; omega
  | succ f ih =>
    intro n ds h
    have hmod : n % 10 < 10 := Nat.mod_lt _ (by decide)
    by_cases h0 : n / 10 = 0
    · have hn : n % 10 = n := by omega
      have hd : digitVal (Nat.digitChar n) = n := by
        have := digitVal_digitChar _ hmod
        rwa [hn] at this
      simp only [Nat.toDigitsCore, h0, if_true, decodeFrom, List.foldl_cons,
        hn, hd, Nat.zero_mul, Nat.zero_add]
    · have hlt : n / 10 < f := by omega
      have hrec := ih (n / 10) (Nat.digitChar (n % 10) :: ds) hlt
      have hn : n / 10 * 10 + n % 10 = n := by omega
      simp only [Nat.toDigitsCore, h0, if_false]
      rw [hrec]
      simp only [decodeFrom, List.foldl_cons, digitVal_digitChar _ hmod, hn]

theorem repr_injective : Function.Injective Nat.repr := by
  intro a b h
  have hl : Nat.toDigits 10 a = Nat.toDigits 10 b := by
    have := congrArg String.data h
    simpa [Nat.repr, List.asString] using this
  have ha := decodeFrom_toDigitsCore (a + 1) a [] (by omega)
  have hb := decodeFrom_toDigitsCore (b + 1) b [] (by omega)
  simp only [Nat.toDigits] at hl
  rw [hl] at ha
  simpa [decodeFrom] using ha.symm.trans hb

theorem filename_ne_empty (u : Upload) : u.filename ≠ "" := by
  intro h
  have := congrArg String.length h
  simp only [Upload.filename, String.length_append] at this
  have h1 : "-".length = 1 := rfl
  have h2 : "".length = 0 := rfl
  omega


/-! ## Effect of one request on ids and names -/

theorem map_id_mutateFirst (i : String) (f : Item → Item) (hf : ∀ x, (f x).id = x.id)
    (l : List Item) :
    (mutateFirst i f l).map (fun it => it.id) = l.map (fun it => it.id) := by
  induction l with
  | nil => rfl
  | cons x xs ih =>
    by_cases hx : x.id = i
    · simp [mutateFirst, hx, hf]
    · simp [mutateFirst, hx, ih]

theorem mem_mutateFirst {i : String} {f : Item → Item} {l : List Item} {x : Item}
    (h : x ∈ mutateFirst i f l) : x ∈ l ∨ ∃ y ∈ l, x = f y := by
  induction l with
  | nil => simp [mutateFirst] at h
  | cons a as ih =>
    by_cases ha : a.id = i
    · simp only [mutateFirst, ha, if_true, List.mem_cons] at h
      rcases h with h | h
      · exact Or.inr ⟨a, by simp, h⟩
      · exact Or.inl (by simp [h])
    · simp only [mutateFirst, ha, if_false, List.mem_cons] at h
      rcases h with h | h
      · exact Or.inl (by simp [h])
      · rcases ih h with h | ⟨y, hy, e⟩
        · exact Or.inl (by simp [h])
        · exact Or.inr ⟨y, by simp [hy], e⟩

theorem mintedClocks_cons (r : Request) (rs : List Request) :
    mintedClocks (r :: rs) = mintedClocks [r] ++ mintedClocks rs := by
  cases r with
  | register body file now =>
    cases body with
    | none => simp [mintedClocks]
    | some b =>
      simp only [mintedClocks]
      split <;> simp
  | _ => simp [mintedClocks]

theorem patchNames_cons (r : Request) (rs : List Request) :
    patchNames (r :: rs) = patchNames [r] ++ patchNames rs := by
  cases r with
  | putItem i body => cases body <;> simp [patchNames]
  | _ => simp [patchNames]

theorem ids_saveData (l : List Item) (fs : Files) : ids ⟨saveData l, fs⟩ = l.map (fun it => it.id) := by
  simp [ids, map_id_saveData]

theorem names_saveData {l : List Item} (h : ∀ y ∈ l, y.name ≠ .str "") :
    ∀ x ∈ saveData l, x.name ≠ .str "" := by
  intro x hx hname
  obtain ⟨y, hy, rfl⟩ := mem_saveData hx
  exact h y hy (JVal.serialise_eq_empty hname)

theorem handle_ids (s : State) (r : Request) :
    (mintedClocks [r] = [] ∧ (ids (handle s r).2).Sublist (ids s)) ∨
    (∃ now, mintedClocks [r] = [now] ∧ ids (handle s r).2 = ids s ++ [Nat.repr now]) := by
  cases r with
  | register body file now =>
    cases body with
    | none => exact Or.inl ⟨by simp [mintedClocks], by simp [handle, register, ids]⟩
    | some body =>
      by_cases hb : truthy? body.inventory_name = true
      · refine Or.inr ⟨now, by simp [mintedClocks, hb], ?_⟩
        simp only [handle, register, hb, Bool.not_true, Bool.false_eq_true, if_false,
          ids_saveData]
        simp [ids, newItem]
      · exact Or.inl ⟨by simp [mintedClocks, hb], by simp [handle, register, hb, ids]⟩
  | getInventory => exact Or.inl ⟨rfl, by simp [handle, getInventory]⟩
  | getItem i =>
    refine Or.inl ⟨rfl, ?_⟩
    simp only [handle, getItem]
    split <;> simp
  | putItem i body =>
    refine Or.inl ⟨by cases body <;> rfl, ?_⟩
    simp only [handle, putItem]
    split
    · simp
    · split
      · simp
      · next p =>
        rw [ids_saveData, map_id_mutateFirst i (applyPatch p) (fun _ => rfl)]
        exact List.Sublist.refl _
  | getPhoto i =>
    refine Or.inl ⟨rfl, ?_⟩
    simp only [handle, getPhoto]
    split
    · simp
    · split
      · simp
      · split
        · simp
        · split <;> simp
  | putPhoto i file =>
    refine Or.inl ⟨rfl, ?_⟩
    simp only [handle, putPhoto]
    split
    · simp [ids]
    · have hf : ∀ x, (setPhoto file x).id = x.id := by
        intro x; cases file <;> rfl
      rw [ids_saveData, map_id_mutateFirst i (setPhoto file) hf]
      exact List.Sublist.refl _
  | deleteItem i =>
    refine Or.inl ⟨rfl, ?_⟩
    simp only [handle, deleteItem]
    split
    · simp
    · rw [ids_saveData]
      exact List.Sublist.map _ (List.filter_sublist _)
  | search body =>
    refine Or.inl ⟨rfl, ?_⟩
    simp only [handle, search]
    split
    · simp
    · split <;> simp

theorem ids_nodup_run : ∀ (reqs : List Request) (s : State), (ids s).Nodup →
    (∀ t ∈ mintedClocks reqs, Nat.repr t ∉ ids s) → (mintedClocks reqs).Nodup →
    (ids (run s reqs)).Nodup := by
  intro reqs
  induction reqs with
  | nil => intro s h _ _; simpa [run] using h
  | cons r rs ih =>
    intro s hs hfresh hnd
    rw [mintedClocks_cons] at hfresh hnd
    simp only [run]
    rcases handle_ids s r with ⟨he, hsub⟩ | ⟨now, he, hids⟩
    · rw [he] at hfresh hnd
      refine ih _ (hs.sublist hsub) ?_ (by simpa using hnd)
      intro t ht hmem
      exact hfresh t (by simpa using ht) (hsub.subset hmem)
    · rw [he] at hfresh hnd
      have hnd2 : now ∉ mintedClocks rs ∧ (mintedClocks rs).Nodup := by simpa using hnd
      refine ih _ ?_ ?_ hnd2.2
      · rw [hids]
        refine List.Nodup.append hs (by simp) ?_
        intro x hx hx2
        have : x = Nat.repr now := by simpa using hx2
        subst this
        exact hfresh now (by simp) hx
      · intro t ht hmem
        rw [hids] at hmem
        rcases List.mem_append.1 hmem with hm | hm
        · exact hfresh t (by simp [ht]) hm
        · have : Nat.repr t = Nat.repr now := by simpa using hm
          have := repr_injective this
          subst this
          exact hnd2.1 ht

theorem handle_names (s : State) (r : Request)
    (hs : ∀ it ∈ s.items, it.name ≠ .str "")
    (hr : some (JVal.str "") ∉ patchNames [r]) :
    ∀ it ∈ (handle s r).2.items, it.name ≠ .str "" := by
  cases r with
  | register body file now =>
    cases body with
    | none => simpa [handle, register] using hs
    | some body =>
      by_cases hb : truthy? body.inventory_name = true
      · simp only [handle, register, hb, Bool.not_true, Bool.false_eq_true, if_false]
        apply names_saveData
        intro it hit
        rcases List.mem_append.1 hit with hit | hit
        · exact hs it hit
        · have hnew : it = newItem body file now := by simpa using hit
          subst hnew
          intro hname
          cases hn : body.inventory_name with
          | none => simp [hn, truthy?] at hb
          | some v =>
            simp only [newItem, hn, Option.getD_some] at hname
            subst hname
            simp [hn, truthy?, JVal.truthy] at hb
      · intro it hit
        simp only [handle, register, hb, Bool.not_false, if_true] at hit
        exact hs it hit
  | getInventory => simpa [handle, getInventory] using hs
  | getItem i =>
    simp only [handle, getItem]
    split <;> exact hs
  | putItem i body =>
    simp only [handle, putItem]
    split
    · exact hs
    · cases body with
      | none => exact hs
      | some p =>
        apply names_saveData
        intro it hit
        rcases mem_mutateFirst hit with h | ⟨y, hy, rfl⟩
        · exact hs it h
        · have hy2 := hs y hy
          have hp : p.name ≠ some (.str "") := by
            intro h; exact hr (by simp [patchNames, h])
          simp only [applyPatch]
          cases hn : p.name with
          | none => simpa [nullish] using hy2
          | some v =>
            cases v with
            | null => simpa [nullish] using hy2
            | str t =>
              have : t ≠ "" := by
                intro ht; exact hp (by simp [hn, ht])
              simpa [nullish] using this
            | bool b => simp [nullish]
            | num n => simp [nullish]
            | arr xs => simp [nullish]
            | obj kvs => simp [nullish]
  | getPhoto i =>
    simp only [handle, getPhoto]
    split
    · exact hs
    · split
      · exact hs
      · split
        · exact hs
        · split <;> exact hs
  | putPhoto i file =>
    simp only [handle, putPhoto]
    split
    · exact hs
    · apply names_saveData
      intro it hit
      rcases mem_mutateFirst hit with h | ⟨y, hy, rfl⟩
      · exact hs it h
      · cases file <;> exact hs y hy
  | deleteItem i =>
    simp only [handle, deleteItem]
    split
    · exact hs
    · apply names_saveData
      intro it hit
      exact hs it (List.mem_filter.1 hit).1
  | search body =>
    simp only [handle, search]
    split
    · exact hs
    · split <;> exact hs

/-! ## Invariants over request sequences -/

/-- C3 (as amended): starting from a collection in which no item's name is the empty string,
after every sequence of requests (register, update, photo update, delete, and the read-only
ones) in which no `PUT /inventory/:id` carries the empty string as `name`, no item of the
persisted collection has the empty string as name. -/
theorem names_nonempty (reqs : List Request) :
    ∀ (s : State), (∀ it ∈ s.items, it.name ≠ .str "") →
      some (JVal.str "") ∉ patchNames reqs →
      ∀ it ∈ (run s reqs).items, it.name ≠ .str "" := by
  induction reqs with
  | nil => intro s h _; simpa [run] using h
  | cons r rs ih =>
    intro s hs hp
    rw [patchNames_cons] at hp
    simp only [run]
    exact ih _ (handle_names s r hs (fun h => hp (by simp [h])))
      (fun h => hp (by simp [h]))

theorem names_nonempty_witness :
    (∀ it ∈ State.empty.items, it.name ≠ .str "") ∧
    some (JVal.str "") ∉ patchNames lifecycle ∧
    ∀ it ∈ (run State.empty lifecycle).items, it.name ≠ .str "" :=
  ⟨by decide, by decide, names_nonempty lifecycle State.empty (by decide) (by decide)⟩

/-- C3 (as stated) fails: after registering "Widget" and sending `{"name": ""}` to
`PUT /inventory/1`, the persisted item has the empty string as name. -/
theorem names_nonempty_put_empty :
    (∀ it ∈ State.empty.items, it.name ≠ .str "") ∧
    ∃ it ∈ (run State.empty emptyRename).items, it.name = .str "" := by
  decide

/-- C4 (as amended): starting from the empty collection, after every sequence of requests in
which the register requests that pass the name check read pairwise distinct clock values, the
ids of the persisted items are pairwise distinct. -/
theorem ids_unique (reqs : List Request) (h : (mintedClocks reqs).Nodup) :
    (ids (run State.empty reqs)).Nodup :=
  ids_nodup_run reqs State.empty (by simp [ids, State.empty]) (by simp [ids, State.empty]) h

theorem ids_unique_witness :
    (mintedClocks lifecycle).Nodup ∧ (ids (run State.empty lifecycle)).Nodup :=
  ⟨by decide, ids_unique lifecycle (by decide)⟩

/-- C4 (as stated) fails: two register requests handled at the same clock reading leave two
items with the same id. -/
theorem ids_same_tick :
    ids (run State.empty (sameTick.map Registration.request)) = ["5", "5"] ∧
    ¬ (ids (run State.empty (sameTick.map Registration.request))).Nodup := by
  decide


/-! ## Register / list / get round trip -/

theorem findItem_of_nodup : ∀ (l : List Item), (l.map (fun it => it.id)).Nodup →
    ∀ it ∈ l, findItem l it.id = some it := by
  intro l
  induction l with
  | nil => intro _ it hit; simp at hit
  | cons x xs ih =>
    intro hnd it hit
    have hnd2 : x.id ∉ xs.map (fun it => it.id) ∧ (xs.map (fun it => it.id)).Nodup := by
      simpa using hnd
    rcases List.mem_cons.1 hit with rfl | hmem
    · simp [findItem, List.find?]
    · have hne : x.id ≠ it.id := by
        intro e
        exact hnd2.1 (by rw [e]; exact List.mem_map_of_mem _ hmem)
      have := ih hnd2.2 it hmem
      simpa [findItem, List.find?, hne] using this

theorem run_registrations : ∀ (regs : List Registration) (s : State),
    s.written = true → (∀ r ∈ regs, truthy? r.body.inventory_name = true) →
    (run s (regs.map Registration.request)).items
      = s.items ++ regs.map Registration.item := by
  intro regs
  induction regs with
  | nil => intro s _ _; simp [run]
  | cons r rs ih =>
    intro s hw h
    have hr : truthy? r.body.inventory_name = true := h r (by simp)
    have hrs : ∀ q ∈ rs, truthy? q.body.inventory_name = true := fun q hq => h q (by simp [hq])
    have hsave : saveData s.items = s.items := by simpa [State.written] using hw
    have hst : (handle s r.request).2
        = ⟨saveData (s.items ++ [newItem r.body r.file r.now]), storeUpload s.files r.file⟩ := by
      simp [Registration.request, handle, register, hr]
    simp only [List.map_cons, run]
    rw [hst, ih _ (written_saveData _ _) hrs]
    show saveData (s.items ++ [newItem r.body r.file r.now]) ++ rs.map Registration.item
      = s.items ++ r.item :: rs.map Registration.item
    rw [saveData_append, hsave]
    simp [saveData, Registration.item]

/-- C7 (as amended): for every sequence of N register requests whose names pass the name check
(every non-empty string does) and whose clock readings are pairwise distinct, applied in order
to the empty collection, `GET /inventory` lists exactly the N created items in registration
order, and for each listed item `GET /inventory/:id` with its id answers 200 with that same item
(same id, name, description, photo and photo_url). -/
theorem register_roundtrip (regs : List Registration)
    (hn : ∀ r ∈ regs, truthy? r.body.inventory_name = true)
    (hc : (regs.map (fun r => r.now)).Nodup) :
    (getInventory (run State.empty (regs.map Registration.request))).1
      = jsonResponse 200 (JVal.mkArr ((regs.map Registration.item).map itemView)) ∧
    (run State.empty (regs.map Registration.request)).items.length = regs.length ∧
    ∀ it ∈ (run State.empty (regs.map Registration.request)).items,
      (getItem (run State.empty (regs.map Registration.request)) it.id).1
        = jsonResponse 200 (itemView it) := by
  have hitems := run_registrations regs State.empty (by decide) hn
  simp only [State.empty, List.nil_append] at hitems
  refine ⟨by simp [getInventory, State.empty, hitems], by simp [State.empty, hitems], ?_⟩
  intro it hit
  have hnd : ((run State.empty (regs.map Registration.request)).items.map
      (fun it => it.id)).Nodup := by
    simp only [State.empty, hitems, List.map_map]
    have : ((fun it : Item => it.id) ∘ Registration.item) = Nat.repr ∘ (fun r => r.now) := by
      funext r; rfl
    rw [this, ← List.map_map]
    exact hc.map repr_injective
  simp [getItem, findItem_of_nodup _ hnd it hit]

theorem register_roundtrip_witness :
    (∀ r ∈ twoTicks, truthy? r.body.inventory_name = true) ∧
    (twoTicks.map (fun r => r.now)).Nodup ∧
    (getInventory (run State.empty (twoTicks.map Registration.request))).1
      = jsonResponse 200 (JVal.mkArr ((twoTicks.map Registration.item).map itemView)) ∧
    (run State.empty (twoTicks.map Registration.request)).items.length = twoTicks.length ∧
    ∀ it ∈ (run State.empty (twoTicks.map Registration.request)).items,
      (getItem (run State.empty (twoTicks.map Registration.request)) it.id).1
        = jsonResponse 200 (itemView it) :=
  ⟨by decide, by decide, register_roundtrip twoTicks (by decide) (by decide)⟩

/-- C7 (as stated) fails: two registrations with non-empty names handled at the same clock
reading are both listed, but `GET /inventory/:id` with the id of the second listed item answers
with the first item. -/
theorem register_roundtrip_same_tick :
    (∀ r ∈ sameTick, ∃ n, r.body.inventory_name = some (.str n) ∧ n ≠ "") ∧
    (run State.empty (sameTick.map Registration.request)).items.length = 2 ∧
    ∃ it ∈ (run State.empty (sameTick.map Registration.request)).items,
      (getItem (run State.empty (sameTick.map Registration.request)) it.id).1
        ≠ jsonResponse 200 (itemView it) := by
  refine ⟨?_, by decide, by decide⟩
  intro r hr
  simp only [sameTick, List.mem_cons, List.mem_singleton, List.not_mem_nil, or_false] at hr
  rcases hr with rfl | rfl
  · exact ⟨"A", rfl, by decide⟩
  · exact ⟨"B", rfl, by decide⟩


/-! ## Cache directory lemmas -/

theorem Files.read_filter_ne (fs : Files) (n p : String) (h : p ≠ n) :
    Files.read (fs.filter (fun e => decide (e.1 ≠ n))) p = Files.read fs p := by
  induction fs with
  | nil => rfl
  | cons e es ih =>
    simp only [Files.read] at ih ⊢
    by_cases he : e.1 = n
    · have hep : e.1 ≠ p := by rw [he]; exact fun x => h x.symm
      rw [List.filter_cons_of_neg (by simpa using he), List.find?_cons_of_neg _ (by simpa using hep)]
      exact ih
    · rw [List.filter_cons_of_pos (by simpa using he)]
      by_cases hp : e.1 = p
      · rw [List.find?_cons_of_pos _ (by simpa using hp),
          List.find?_cons_of_pos _ (by simpa using hp)]
      · rw [List.find?_cons_of_neg _ (by simpa using hp),
          List.find?_cons_of_neg _ (by simpa using hp)]
        exact ih

theorem Files.read_write_same (fs : Files) (n : String) (b : Bytes) :
    (Files.write fs n b).read n = some b := by
  simp [Files.write, Files.read, List.find?]

theorem Files.read_write_ne (fs : Files) (n p : String) (b : Bytes) (h : p ≠ n) :
    (Files.write fs n b).read p = fs.read p := by
  have h2 : n ≠ p := fun x => h x.symm
  have := Files.read_filter_ne fs n p h
  simp only [Files.read] at this ⊢
  simpa [Files.write, List.find?, h2] using this

theorem Files.read_unlink_ne (fs : Files) (n p : String) (h : p ≠ n) :
    (Files.unlink fs n).read p = fs.read p :=
  Files.read_filter_ne fs n p h

theorem read_storeUpload_ne (fs : Files) (file : Option Upload) (p : String)
    (h : ∀ u, file = some u → p ≠ u.filename) :
    (storeUpload fs file).read p = fs.read p := by
  cases file with
  | none => rfl
  | some u => exact Files.read_write_ne fs _ p _ (h u rfl)

theorem storedNames_cons (r : Request) (rs : List Request) :
    storedNames (r :: rs) = storedNames [r] ++ storedNames rs := by
  cases r with
  | register body file now => cases file <;> simp [storedNames]
  | putPhoto i file => cases file <;> simp [storedNames]
  | _ => simp [storedNames]

theorem mem_mutateFirst_of_nodup {j : String} {f : Item → Item} {l : List Item} {it0 x : Item}
    (hnd : (l.map (fun it => it.id)).Nodup) (hfind : findItem l j = some it0)
    (hx : x ∈ mutateFirst j f l) : (x ∈ l ∧ x.id ≠ j) ∨ x = f it0 := by
  obtain ⟨pre, post, e, hpre, hid⟩ := findItem_split hfind
  subst e
  rw [mutateFirst_split pre post j it0 f hpre hid] at hx
  have hpost : ∀ y ∈ post, y.id ≠ j := by
    intro y hy hyj
    rw [List.map_append, List.map_cons] at hnd
    have h2 := (List.nodup_append.1 hnd).2.1
    have h3 : it0.id ∉ post.map (fun it => it.id) := (List.nodup_cons.1 h2).1
    apply h3
    rw [hid, ← hyj]
    exact List.mem_map_of_mem _ hy
  rcases List.mem_append.1 hx with h | h
  · exact Or.inl ⟨by simp [h], hpre x h⟩
  · rcases List.mem_cons.1 h with h | h
    · exact Or.inr h
    · exact Or.inl ⟨by simp [h], hpost x h⟩

theorem mem_of_findItem {l : List Item} {j : String} {it0 : Item}
    (h : findItem l j = some it0) : it0 ∈ l ∧ it0.id = j := by
  obtain ⟨pre, post, e, _, hid⟩ := findItem_split h
  exact ⟨by simp [e], hid⟩

/-! ## Preservation of the photo invariant -/

theorem mintedClocks_tail_sublist (r : Request) (rs : List Request) :
    (mintedClocks rs).Sublist (mintedClocks (r :: rs)) := by
  rw [mintedClocks_cons]
  exact List.sublist_append_right _ _

theorem storedNames_tail_sublist (r : Request) (rs : List Request) :
    (storedNames rs).Sublist (storedNames (r :: rs)) := by
  rw [storedNames_cons]
  exact List.sublist_append_right _ _

theorem PhotoInv.frame {s s2 : State} {acc acc2 : String → Option Bytes}
    {fut fut2 : List Request} (hinv : PhotoInv s acc fut)
    (hitems : ∀ x ∈ s2.items, ∃ y ∈ s.items, y.id = x.id ∧ y.photo = x.photo)
    (hids : (ids s2).Sublist (ids s))
    (hclk : (mintedClocks fut2).Sublist (mintedClocks fut))
    (hnm : (storedNames fut2).Sublist (storedNames fut))
    (hfiles : ∀ x ∈ s2.items, ∀ p, x.photo = some p → s2.files.read p = s.files.read p)
    (hacc : ∀ x ∈ s2.items, acc2 x.id = acc x.id) : PhotoInv s2 acc2 fut2 where
  idsNodup := hinv.idsNodup.sublist hids
  idsFresh := fun t ht hmem => hinv.idsFresh t (hclk.subset ht) (hids.subset hmem)
  clocksNodup := hinv.clocksNodup.sublist hclk
  namesNodup := hinv.namesNodup.sublist hnm
  namesFresh := by
    intro x hx p hp hmem
    obtain ⟨y, hy, _, hyp⟩ := hitems x hx
    exact hinv.namesFresh y hy p (by rw [hyp, hp]) (hnm.subset hmem)
  photoOwner := by
    intro x1 h1 x2 h2 p hp1 hp2
    obtain ⟨y1, hy1, e1, q1⟩ := hitems x1 h1
    obtain ⟨y2, hy2, e2, q2⟩ := hitems x2 h2
    rw [← e1, ← e2]
    exact hinv.photoOwner y1 hy1 y2 hy2 p (by rw [q1, hp1]) (by rw [q2, hp2])
  photoStored := by
    intro x hx p hp
    obtain ⟨y, hy, e, q⟩ := hitems x hx
    obtain ⟨hne, b, hb, ha⟩ := hinv.photoStored y hy p (by rw [q, hp])
    refine ⟨hne, b, ?_, ?_⟩
    · rw [hfiles x hx p hp]; exact hb
    · rw [hacc x hx, ← e]; exact ha

theorem PhotoInv.save {l : List Item} {fs : Files} {acc : String → Option Bytes}
    {fut : List Request} (hinv : PhotoInv ⟨l, fs⟩ acc fut) : PhotoInv ⟨saveData l, fs⟩ acc fut := by
  refine hinv.frame ?_ ?_ (List.Sublist.refl _) (List.Sublist.refl _) (fun _ _ _ _ => rfl)
    (fun _ _ => rfl)
  · intro x hx
    obtain ⟨y, hy, rfl⟩ := mem_saveData hx
    exact ⟨y, hy, rfl, rfl⟩
  · rw [ids_saveData]
    exact List.Sublist.refl _

theorem handle_read (s : State) (r : Request)
    (h : r = .getInventory ∨ (∃ i, r = .getItem i) ∨ (∃ i, r = .getPhoto i) ∨
      ∃ b, r = .search b) : (handle s r).2 = s := by
  rcases h with rfl | ⟨i, rfl⟩ | ⟨i, rfl⟩ | ⟨b, rfl⟩
  · rfl
  · simp only [handle, getItem]; split <;> rfl
  · simp only [handle, getPhoto]
    split
    · rfl
    · split
      · rfl
      · split
        · rfl
        · split <;> rfl
  · simp only [handle, search]
    split
    · rfl
    · split <;> rfl

theorem PhotoInv.step_same {s : State} {acc acc2 : String → Option Bytes} {r : Request}
    {rs : List Request} (hinv : PhotoInv s acc (r :: rs)) (hacc : ∀ k, acc2 k = acc k) :
    PhotoInv s acc2 rs :=
  hinv.frame (fun x hx => ⟨x, hx, rfl, rfl⟩) (List.Sublist.refl _)
    (mintedClocks_tail_sublist r rs) (storedNames_tail_sublist r rs)
    (fun _ _ _ _ => rfl) (fun x _ => hacc x.id)

theorem PhotoInv.step_putItem {s : State} {acc : String → Option Bytes} {i : String}
    {body : Option Patch} {rs : List Request} (hinv : PhotoInv s acc (.putItem i body :: rs)) :
    PhotoInv (handle s (.putItem i body)).2
      (fun k => uploadStep k s (acc k) (.putItem i body)) rs := by
  cases hf : findItem s.items i with
  | none =>
    have hst : (handle s (.putItem i body)).2 = s := by simp [handle, putItem, hf]
    rw [hst]
    exact hinv.step_same (fun _ => rfl)
  | some it0 =>
    cases body with
    | none =>
      have hst : (handle s (.putItem i none)).2 = s := by simp [handle, putItem, hf]
      rw [hst]
      exact hinv.step_same (fun _ => rfl)
    | some p =>
      have hst : (handle s (.putItem i (some p))).2
          = ⟨saveData (mutateFirst i (applyPatch p) s.items), s.files⟩ := by
        simp [handle, putItem, hf]
      rw [hst]
      apply PhotoInv.save
      refine hinv.frame ?_ ?_ (mintedClocks_tail_sublist _ rs) (storedNames_tail_sublist _ rs)
        (fun _ _ _ _ => rfl) (fun _ _ => rfl)
      · intro x hx
        rcases mem_mutateFirst hx with h | ⟨y, hy, rfl⟩
        · exact ⟨x, h, rfl, rfl⟩
        · exact ⟨y, hy, rfl, rfl⟩
      · simp only [ids]
        rw [map_id_mutateFirst i (applyPatch p) (fun _ => rfl)]

theorem PhotoInv.step_delete {s : State} {acc : String → Option Bytes} {i : String}
    {rs : List Request} (hinv : PhotoInv s acc (.deleteItem i :: rs)) :
    PhotoInv (handle s (.deleteItem i)).2 (fun k => uploadStep k s (acc k) (.deleteItem i)) rs := by
  cases hf : findItem s.items i with
  | none =>
    have hst : (handle s (.deleteItem i)).2 = s := by simp [handle, deleteItem, hf]
    rw [hst]
    have hno := findItem_none_iff.1 hf
    refine hinv.frame (fun x hx => ⟨x, hx, rfl, rfl⟩) (List.Sublist.refl _)
      (mintedClocks_tail_sublist _ rs) (storedNames_tail_sublist _ rs) (fun _ _ _ _ => rfl) ?_
    intro x hx
    have hne : i ≠ x.id := fun e => hno x hx e.symm
    simp [uploadStep, hne]
  | some it0 =>
    have hst : (handle s (.deleteItem i)).2
        = ⟨saveData (s.items.filter (fun x => decide (x.id ≠ i))), removePhoto s.files it0⟩ := by
      simp only [handle, deleteItem, hf]
    rw [hst]
    apply PhotoInv.save
    obtain ⟨hmem0, hid0⟩ := mem_of_findItem hf
    have hkeep : ∀ x ∈ s.items.filter (fun x => decide (x.id ≠ i)), x ∈ s.items ∧ x.id ≠ i := by
      intro x hx
      have := List.mem_filter.1 hx
      exact ⟨this.1, by simpa using this.2⟩
    refine hinv.frame (fun x hx => ⟨x, (hkeep x hx).1, rfl, rfl⟩)
      (List.Sublist.map _ (List.filter_sublist _))
      (mintedClocks_tail_sublist _ rs) (storedNames_tail_sublist _ rs) ?_ ?_
    · intro x hx p hp
      show (removePhoto s.files it0).read p = s.files.read p
      unfold removePhoto
      cases hp0 : it0.photo with
      | none => rfl
      | some p0 =>
        by_cases he : p0 = ""
        · simp [he]
        · have hne : p ≠ p0 := by
            intro e
            have := hinv.photoOwner x (hkeep x hx).1 it0 hmem0 p hp (by rw [hp0, e])
            exact (hkeep x hx).2 (this.trans hid0)
          simp only [he, if_false]
          exact Files.read_unlink_ne s.files p0 p hne
    · intro x hx
      have hne : i ≠ x.id := fun e => (hkeep x hx).2 e.symm
      simp [uploadStep, hne]

theorem PhotoInv.step_register {s : State} {acc : String → Option Bytes}
    {obody : Option RegisterBody} {file : Option Upload} {now : Nat} {rs : List Request}
    (hinv : PhotoInv s acc (.register obody file now :: rs)) :
    PhotoInv (handle s (.register obody file now)).2
      (fun k => uploadStep k s (acc k) (.register obody file now)) rs := by
  have hnames : storedNames (.register obody file now :: rs)
      = (uploadedName file).toList ++ storedNames rs := by
    cases file <;> simp [storedNames, uploadedName]
  have hfileFresh : ∀ x ∈ s.items, ∀ p, x.photo = some p → ∀ u, file = some u →
      p ≠ u.filename := by
    intro x hx p hp u hu e
    refine hinv.namesFresh x hx p hp ?_
    rw [hnames, hu, e]
    simp [uploadedName]
  cases obody with
  | none =>
    have hst : (handle s (.register none file now)).2 = ⟨s.items, storeUpload s.files file⟩ := by
      simp [handle, register]
    rw [hst]
    refine hinv.frame (fun x hx => ⟨x, hx, rfl, rfl⟩) (List.Sublist.refl _)
      (mintedClocks_tail_sublist _ rs) (storedNames_tail_sublist _ rs) ?_ (fun _ _ => rfl)
    intro x hx p hp
    exact read_storeUpload_ne s.files file p (hfileFresh x hx p hp)
  | some body =>
  by_cases hb : truthy? body.inventory_name = true
  · have hst : (handle s (.register (some body) file now)).2
        = ⟨saveData (s.items ++ [newItem body file now]), storeUpload s.files file⟩ := by
      simp [handle, register, hb]
    have hclk : mintedClocks (.register (some body) file now :: rs) = now :: mintedClocks rs := by
      simp [mintedClocks, hb]
    have hids : ids (⟨s.items ++ [newItem body file now], storeUpload s.files file⟩ : State)
        = ids s ++ [Nat.repr now] := by simp [ids, newItem]
    have hnowFresh : Nat.repr now ∉ ids s := hinv.idsFresh now (by rw [hclk]; simp)
    have hcn : now ∉ mintedClocks rs ∧ (mintedClocks rs).Nodup := by
      have := hinv.clocksNodup
      rw [hclk] at this
      simpa using this
    have hnn := hinv.namesNodup
    rw [hnames] at hnn
    have hnewName : ∀ u, file = some u → u.filename ∉ storedNames rs := by
      intro u hu
      rw [hu] at hnn
      exact (List.nodup_cons.1 (by simpa [uploadedName] using hnn)).1
    have holdId : ∀ x ∈ s.items, Nat.repr now ≠ x.id := by
      intro x hx e
      exact hnowFresh (by rw [e]; exact List.mem_map_of_mem _ hx)
    have haccOld : ∀ x ∈ s.items,
        uploadStep x.id s (acc x.id) (.register (some body) file now) = acc x.id := by
      intro x hx
      simp [uploadStep, holdId x hx]
    rw [hst]
    apply PhotoInv.save
    refine ⟨?_, ?_, hcn.2, (List.nodup_append.1 hnn).2.1, ?_, ?_, ?_⟩
    · rw [hids]
      refine List.Nodup.append hinv.idsNodup (by simp) ?_
      intro x hx hx2
      have : x = Nat.repr now := by simpa using hx2
      subst this
      exact hnowFresh hx
    · intro t ht hmem
      rw [hids] at hmem
      rcases List.mem_append.1 hmem with hm | hm
      · exact hinv.idsFresh t (by rw [hclk]; simp [ht]) hm
      · have : Nat.repr t = Nat.repr now := by simpa using hm
        have := repr_injective this
        subst this
        exact hcn.1 ht
    · intro x hx p hp hmem
      rcases List.mem_append.1 hx with h | h
      · exact hinv.namesFresh x h p hp (by rw [hnames]; simp [hmem])
      · have hx2 : x = newItem body file now := by simpa using h
        subst hx2
        cases hfile : file with
        | none => simp [newItem, uploadedName, hfile] at hp
        | some u =>
          have : p = u.filename := by simpa [newItem, uploadedName, hfile] using hp.symm
          subst this
          exact hnewName u hfile hmem
    · intro x1 h1 x2 h2 p hp1 hp2
      rcases List.mem_append.1 h1 with a1 | a1 <;> rcases List.mem_append.1 h2 with a2 | a2
      · exact hinv.photoOwner x1 a1 x2 a2 p hp1 hp2
      · exfalso
        have hx2 : x2 = newItem body file now := by simpa using a2
        subst hx2
        cases hfile : file with
        | none => simp [newItem, uploadedName, hfile] at hp2
        | some u =>
          have : p = u.filename := by simpa [newItem, uploadedName, hfile] using hp2.symm
          exact hfileFresh x1 a1 p hp1 u hfile this
      · exfalso
        have hx1 : x1 = newItem body file now := by simpa using a1
        subst hx1
        cases hfile : file with
        | none => simp [newItem, uploadedName, hfile] at hp1
        | some u =>
          have : p = u.filename := by simpa [newItem, uploadedName, hfile] using hp1.symm
          exact hfileFresh x2 a2 p hp2 u hfile this
      · have hx1 : x1 = newItem body file now := by simpa using a1
        have hx2 : x2 = newItem body file now := by simpa using a2
        rw [hx1, hx2]
    · intro x hx p hp
      rcases List.mem_append.1 hx with h | h
      · obtain ⟨hne, b, hb2, ha⟩ := hinv.photoStored x h p hp
        refine ⟨hne, b, ?_, ?_⟩
        · show (storeUpload s.files file).read p = some b
          rw [read_storeUpload_ne s.files file p (hfileFresh x h p hp)]
          exact hb2
        · show uploadStep x.id s (acc x.id) (.register (some body) file now) = some b
          rw [haccOld x h]; exact ha
      · have hx2 : x = newItem body file now := by simpa using h
        subst hx2
        cases hfile : file with
        | none => simp [newItem, uploadedName, hfile] at hp
        | some u =>
          have hpu : p = u.filename := by simpa [newItem, uploadedName, hfile] using hp.symm
          subst hpu
          refine ⟨filename_ne_empty u, u.bytes, ?_, ?_⟩
          · show (storeUpload s.files (some u)).read u.filename = some u.bytes
            exact Files.read_write_same s.files _ _
          · show uploadStep (newItem body (some u) now).id s _
                (.register (some body) (some u) now) = some u.bytes
            simp [uploadStep, hb, newItem]
  · have hst : (handle s (.register (some body) file now)).2
        = ⟨s.items, storeUpload s.files file⟩ := by
      simp [handle, register, hb]
    rw [hst]
    refine hinv.frame (fun x hx => ⟨x, hx, rfl, rfl⟩) (List.Sublist.refl _)
      (mintedClocks_tail_sublist _ rs) (storedNames_tail_sublist _ rs) ?_ ?_
    · intro x hx p hp
      exact read_storeUpload_ne s.files file p (hfileFresh x hx p hp)
    · intro x _
      simp [uploadStep, hb]

theorem PhotoInv.step_putPhoto {s : State} {acc : String → Option Bytes} {i : String}
    {file : Option Upload} {rs : List Request}
    (hinv : PhotoInv s acc (.putPhoto i file :: rs)) :
    PhotoInv (handle s (.putPhoto i file)).2
      (fun k => uploadStep k s (acc k) (.putPhoto i file)) rs := by
  have hnames : storedNames (.putPhoto i file :: rs)
      = (uploadedName file).toList ++ storedNames rs := by
    cases file <;> simp [storedNames, uploadedName]
  have hfileFresh : ∀ x ∈ s.items, ∀ p, x.photo = some p → ∀ u, file = some u →
      p ≠ u.filename := by
    intro x hx p hp u hu e
    refine hinv.namesFresh x hx p hp ?_
    rw [hnames, hu, e]
    simp [uploadedName]
  cases hf : findItem s.items i with
  | none =>
    have hst : (handle s (.putPhoto i file)).2 = ⟨s.items, storeUpload s.files file⟩ := by
      simp [handle, putPhoto, hf]
    rw [hst]
    refine hinv.frame (fun x hx => ⟨x, hx, rfl, rfl⟩) (List.Sublist.refl _)
      (mintedClocks_tail_sublist _ rs) (storedNames_tail_sublist _ rs) ?_ ?_
    · intro x hx p hp
      exact read_storeUpload_ne s.files file p (hfileFresh x hx p hp)
    · intro x hx
      have hne : i ≠ x.id := fun e => findItem_none_iff.1 hf x hx e.symm
      cases file <;> simp [uploadStep, hne]
  | some it0 =>
    have hst : (handle s (.putPhoto i file)).2
        = ⟨saveData (mutateFirst i (setPhoto file) s.items), storeUpload s.files file⟩ := by
      simp [handle, putPhoto, hf]
    rw [hst]
    apply PhotoInv.save
    obtain ⟨hmem0, hid0⟩ := mem_of_findItem hf
    have hidsEq : ids (⟨mutateFirst i (setPhoto file) s.items, storeUpload s.files file⟩ : State)
        = ids s := by
      simp only [ids]
      exact map_id_mutateFirst i (setPhoto file) (fun x => by cases file <;> rfl) s.items
    cases hfile : file with
    | none =>
      refine hinv.frame ?_ (by rw [← hfile, hidsEq])
        (mintedClocks_tail_sublist _ rs) (storedNames_tail_sublist _ rs) (fun _ _ _ _ => rfl)
        (fun _ _ => rfl)
      intro x hx
      rcases mem_mutateFirst hx with h | ⟨y, hy, e⟩
      · exact ⟨x, h, rfl, rfl⟩
      · exact ⟨y, hy, by rw [e]; rfl, by rw [e]; rfl⟩
    | some u =>
      subst hfile
      have hnn := hinv.namesNodup
      rw [hnames] at hnn
      have hnewName : u.filename ∉ storedNames rs :=
        (List.nodup_cons.1 (by simpa [uploadedName] using hnn)).1
      have hcases : ∀ x ∈ mutateFirst i (setPhoto (some u)) s.items,
          (x ∈ s.items ∧ x.id ≠ i) ∨ x = setPhoto (some u) it0 :=
        fun x hx => mem_mutateFirst_of_nodup hinv.idsNodup hf hx
      have hnewPhoto : (setPhoto (some u) it0).photo = some u.filename := rfl
      have hnewId : (setPhoto (some u) it0).id = i := hid0
      refine ⟨by rw [hidsEq]; exact hinv.idsNodup, ?_,
        hinv.clocksNodup.sublist (mintedClocks_tail_sublist _ rs),
        (List.nodup_append.1 hnn).2.1, ?_, ?_, ?_⟩
      · intro t ht
        rw [hidsEq]
        exact hinv.idsFresh t ((mintedClocks_tail_sublist _ rs).subset ht)
      · intro x hx p hp hmem
        rcases hcases x hx with ⟨h, _⟩ | rfl
        · exact hinv.namesFresh x h p hp ((storedNames_tail_sublist _ rs).subset hmem)
        · have : p = u.filename := by rw [hnewPhoto] at hp; exact (Option.some.inj hp).symm
          subst this
          exact hnewName hmem
      · intro x1 h1 x2 h2 p hp1 hp2
        rcases hcases x1 h1 with ⟨a1, _⟩ | e1 <;> rcases hcases x2 h2 with ⟨a2, _⟩ | e2
        · exact hinv.photoOwner x1 a1 x2 a2 p hp1 hp2
        · exfalso
          subst e2
          have : p = u.filename := by rw [hnewPhoto] at hp2; exact (Option.some.inj hp2).symm
          exact hfileFresh x1 a1 p hp1 u rfl this
        · exfalso
          subst e1
          have : p = u.filename := by rw [hnewPhoto] at hp1; exact (Option.some.inj hp1).symm
          exact hfileFresh x2 a2 p hp2 u rfl this
        · rw [e1, e2]
      · intro x hx p hp
        rcases hcases x hx with ⟨h, hxi⟩ | rfl
        · obtain ⟨hne, b, hb2, ha⟩ := hinv.photoStored x h p hp
          refine ⟨hne, b, ?_, ?_⟩
          · show (storeUpload s.files (some u)).read p = some b
            rw [read_storeUpload_ne s.files (some u) p (hfileFresh x h p hp)]
            exact hb2
          · show uploadStep x.id s (acc x.id) (.putPhoto i (some u)) = some b
            have hne2 : i ≠ x.id := fun e => hxi e.symm
            simp only [uploadStep, hne2, decide_False, Bool.false_and, Bool.false_eq_true,
              if_false]
            exact ha
        · have hpu : p = u.filename := by
            rw [hnewPhoto] at hp; exact (Option.some.inj hp).symm
          subst hpu
          refine ⟨filename_ne_empty u, u.bytes, ?_, ?_⟩
          · show (storeUpload s.files (some u)).read u.filename = some u.bytes
            exact Files.read_write_same s.files _ _
          · show uploadStep (setPhoto (some u) it0).id s _ (.putPhoto i (some u)) = some u.bytes
            rw [hnewId]
            simp [uploadStep, hf]

theorem PhotoInv.step {s : State} {acc : String → Option Bytes} {r : Request}
    {rs : List Request} (hinv : PhotoInv s acc (r :: rs)) :
    PhotoInv (handle s r).2 (fun k => uploadStep k s (acc k) r) rs := by
  cases r with
  | register body file now => exact hinv.step_register
  | getInventory =>
    rw [handle_read s _ (Or.inl rfl)]
    exact hinv.step_same (fun _ => rfl)
  | getItem i =>
    rw [handle_read s _ (Or.inr (Or.inl ⟨i, rfl⟩))]
    exact hinv.step_same (fun _ => rfl)
  | putItem i p => exact hinv.step_putItem
  | getPhoto i =>
    rw [handle_read s _ (Or.inr (Or.inr (Or.inl ⟨i, rfl⟩)))]
    exact hinv.step_same (fun _ => rfl)
  | putPhoto i file => exact hinv.step_putPhoto
  | deleteItem i => exact hinv.step_delete
  | search b =>
    rw [handle_read s _ (Or.inr (Or.inr (Or.inr ⟨b, rfl⟩)))]
    exact hinv.step_same (fun _ => rfl)

theorem PhotoInv.served : ∀ (reqs : List Request) (s : State) (acc : String → Option Bytes),
    PhotoInv s acc reqs →
    ∀ it ∈ (run s reqs).items, it.photo ≠ none →
      ∃ b, (getPhoto (run s reqs) it.id).1 = ⟨200, "image/jpeg", .file b⟩ ∧
        latestUpload it.id s (acc it.id) reqs = some b := by
  intro reqs
  induction reqs with
  | nil =>
    intro s acc hinv it hit hp
    simp only [run] at hit ⊢
    cases hph : it.photo with
    | none => exact absurd hph hp
    | some p =>
      obtain ⟨hne, b, hb, ha⟩ := hinv.photoStored it hit p hph
      have hfind := findItem_of_nodup s.items hinv.idsNodup it hit
      refine ⟨b, ?_, by simpa [latestUpload] using ha⟩
      simp [getPhoto, hfind, hph, hne, hb]
  | cons r rs ih =>
    intro s acc hinv it hit hp
    simp only [run] at hit ⊢
    obtain ⟨b, h1, h2⟩ := ih _ _ hinv.step it hit hp
    exact ⟨b, h1, by simpa [latestUpload] using h2⟩

/-! ## Photo round trip -/

/-- C10 (as amended): after every sequence of requests, starting from the empty collection and
cache, in which the register requests that pass the name check read pairwise distinct clock
values and the stored names given to the uploaded files (clock reading, random integer, original
extension) are pairwise distinct, for every item of the collection whose photo is not `null`,
`GET /inventory/:id/photo` with its id answers 200 with `Content-Type: image/jpeg` and exactly
the bytes most recently uploaded for that item (at its registration or at its latest
`PUT /inventory/:id/photo`). -/
theorem photo_roundtrip (reqs : List Request) (hc : (mintedClocks reqs).Nodup)
    (hn : (storedNames reqs).Nodup) :
    ∀ it ∈ (run State.empty reqs).items, it.photo ≠ none →
      ∃ b, (getPhoto (run State.empty reqs) it.id).1 = ⟨200, "image/jpeg", .file b⟩ ∧
        latestUpload it.id State.empty none reqs = some b := by
  have hinv : PhotoInv State.empty (fun _ => none) reqs :=
    { idsNodup := by simp [ids, State.empty]
      idsFresh := by simp [ids, State.empty]
      clocksNodup := hc
      namesNodup := hn
      namesFresh := by simp [State.empty]
      photoOwner := by simp [State.empty]
      photoStored := by simp [State.empty] }
  exact PhotoInv.served reqs State.empty (fun _ => none) hinv

theorem photo_roundtrip_witness :
    (mintedClocks lifecycle).Nodup ∧ (storedNames lifecycle).Nodup ∧
    (∃ it ∈ (run State.empty lifecycle).items, it.photo ≠ none) ∧
    ∀ it ∈ (run State.empty lifecycle).items, it.photo ≠ none →
      ∃ b, (getPhoto (run State.empty lifecycle) it.id).1 = ⟨200, "image/jpeg", .file b⟩ ∧
        latestUpload it.id State.empty none lifecycle = some b :=
  ⟨by decide, by decide, by decide, photo_roundtrip lifecycle (by decide) (by decide)⟩

/-- C10 (as stated) fails in two ways.  When two uploads get the same stored name (same clock
reading, random integer and extension), the second overwrites the first: the item with id "5"
is served the bytes `[2]` although the bytes uploaded for it were `[1]`.  When two registrations
get the same id, the photo route serves the first item's file: the second item, whose upload was
`[2]`, is served `[1]`. -/
theorem photo_roundtrip_clash :
    (∃ it ∈ (run State.empty nameClash).items, it.name = .str "A" ∧ it.photo ≠ none ∧
      latestUpload it.id State.empty none nameClash = some [1] ∧
      (getPhoto (run State.empty nameClash) it.id).1 = ⟨200, "image/jpeg", .file [2]⟩) ∧
    (∃ it ∈ (run State.empty idClash).items, it.name = .str "B" ∧
      it.photo = some "5-2.jpg" ∧
      (getPhoto (run State.empty idClash) it.id).1 = ⟨200, "image/jpeg", .file [1]⟩) := by
  decide


end Inventory
